import Mathlib

/-!
Verification development for the chart-reader extraction pipeline.

The definitions below are shallow embeddings of the TypeScript sources:

* `src/apps/server/src/utils/coerceRank.ts`
* `src/apps/server/src/utils/extractionCompleteness.ts`
* `src/apps/server/src/worker.ts` (claiming, merging, persistence, the
  top-level error boundary, pending-version promotion)
* `src/apps/web/src/useAppState.ts` (page scoring and candidate scanning)

JavaScript strings are modelled as Lean `String`/`List Char`; JS `Map` and
`Set` objects are modelled as association lists and duplicate-free lists;
JS numbers are modelled as `Nat` where the source only ever holds
non-negative integers and as `ℚ` where fractional scores occur; nullable
values are `Option`; database tables are Lean lists of row structures and
SQL statements are translated to explicit list transformations.  Regular
expressions from the source are hand-compiled to character-list matchers
with JavaScript's leftmost-match, greedy-with-backtracking semantics.
-/

/-- Word characters in the sense of JavaScript's regex `\w` / `\b`:
ASCII letters, digits and underscore. -/
def isWordChar (c : Char) : Bool :=
  (('a' ≤ c ∧ c ≤ 'z') ∨ ('A' ≤ c ∧ c ≤ 'Z') ∨ ('0' ≤ c ∧ c ≤ '9') ∨ c = '_')

/-- Whitespace for JavaScript's `\s` and `String.prototype.trim`,
restricted to the ASCII whitespace that occurs in this pipeline's data. -/
def isJsSpace (c : Char) : Bool :=
  c = ' ' ∨ c = '\t' ∨ c = '\n' ∨ c = '\r' ∨ c = '\x0b' ∨ c = '\x0c'

/-- JavaScript `String.prototype.trim` on a character list. -/
def jsTrim (l : List Char) : List Char :=
  ((l.dropWhile isJsSpace).reverse.dropWhile isJsSpace).reverse

/-- Value of a digit character. -/
def digitVal (c : Char) : Nat := c.toNat - 48

/-- `Number.parseInt` on a non-empty all-digit string. -/
def digitsToNat (l : List Char) : Nat :=
  l.foldl (fun n c => 10 * n + digitVal c) 0

/-- Embedding of `coerceRank` (src/apps/server/src/utils/coerceRank.ts).
`value == null` is `none`; otherwise the argument is the result of
`String(value)`.  The source trims the string, rejects it when empty,
strips every non-digit with `replaceAll(/[^0-9]/g, '')`, rejects the
result when empty and otherwise parses the remaining digits in base 10
(the `Number.isFinite` guard cannot fail for an unbounded integer model). -/
def coerceRank (value : Option String) : Option Nat :=
  match value with
  | none => none
  | some s =>
    let asString := jsTrim s.data
    if asString.isEmpty then none
    else
      let digits := asString.filter Char.isDigit
      if digits.isEmpty then none
      else some (digitsToNat digits)

theorem filter_dropWhile_of_imp {p q : Char → Bool}
    (h : ∀ c, q c = true → p c = false) :
    ∀ l : List Char, (l.dropWhile q).filter p = l.filter p := by
  intro l
  induction l with
  | nil => rfl
  | cons c l ih =>
    by_cases hq : q c = true
    · rw [List.dropWhile_cons_of_pos hq, List.filter_cons_of_neg (by simp [h c hq]), ih]
    · rw [List.dropWhile_cons_of_neg hq]

theorem jsTrim_filter_digits (l : List Char) :
    (jsTrim l).filter Char.isDigit = l.filter Char.isDigit := by
  have himp : ∀ c, isJsSpace c = true → Char.isDigit c = false := by
    intro c hc
    simp only [isJsSpace, decide_eq_true_eq] at hc
    rcases hc with h | h | h | h | h | h <;> subst h <;> rfl
  unfold jsTrim
  rw [List.filter_reverse, filter_dropWhile_of_imp himp, List.filter_reverse,
    List.reverse_reverse, filter_dropWhile_of_imp himp]

/-- C8: `coerceRank` returns the base-10 integer formed from the digit
characters of the value's string form whenever at least one digit is
present, and `none` otherwise; in particular `"12*"` coerces to `12` and
`"NEW"`, `"-"`, `""` and `null` all coerce to `null`. -/
theorem coerceRank_digits_spec :
    (∀ s : String,
      coerceRank (some s) =
        if (s.data.filter Char.isDigit).isEmpty then none
        else some (digitsToNat (s.data.filter Char.isDigit))) ∧
    coerceRank none = none ∧
    coerceRank (some "12*") = some 12 ∧
    coerceRank (some "NEW") = none ∧
    coerceRank (some "-") = none ∧
    coerceRank (some "") = none := by
  refine ⟨?_, rfl, by decide, by decide, by decide, by decide⟩
  intro s
  show (let asString := jsTrim s.data
        if asString.isEmpty then none
        else
          let digits := asString.filter Char.isDigit
          if digits.isEmpty then none
          else some (digitsToNat digits)) = _
  simp only [jsTrim_filter_digits]
  by_cases h : (jsTrim s.data).isEmpty
  · have : jsTrim s.data = [] := by simpa [List.isEmpty_iff] using h
    have hf : s.data.filter Char.isDigit = [] := by
      rw [← jsTrim_filter_digits, this, List.filter_nil]
    simp [h, hf]
  · simp [h]

/-! Hand-compiled regular-expression pieces.  Each piece maps the input
suffix to the list of possible remaining suffixes in JavaScript's
backtracking priority order (greedy quantifiers and left-to-right
alternation); a full pattern matches at a position iff the composed
candidate list is non-empty, and the first candidate is the JS match. -/

/-- Case-insensitive literal match: consumes the word `w` (compared via
`Char.toLower`, matching a JS `/i` pattern on ASCII) and returns the rest. -/
def litCI : List Char → List Char → Option (List Char)
  | [], cs => some cs
  | _, [] => none
  | w :: ws, c :: cs => if c.toLower = w.toLower then litCI ws cs else none

/-- Maximal munch for `\s*`.  Sound here because in every pattern of the
source, `\s*` is followed by a piece that cannot start with whitespace. -/
def munchWs (cs : List Char) : List Char := cs.dropWhile isJsSpace

/-- Word boundary `\b` placed after a word character: succeeds iff the
rest is empty or starts with a non-word character. -/
def wbAfterWord (cs : List Char) : Option (List Char) :=
  match cs with
  | [] => some []
  | c :: _ => if isWordChar c then none else some cs

/-- Greedy `\d{2,3}` immediately followed by `\b`, returning the parsed
number: try three digits, fall back to two, as a JS regex would. -/
def matchD23WB (cs : List Char) : Option (Nat × List Char) :=
  match cs with
  | d1 :: d2 :: rest =>
    if d1.isDigit ∧ d2.isDigit then
      match rest with
      | d3 :: rest2 =>
        if d3.isDigit then
          match wbAfterWord rest2 with
          | some _ => some (digitsToNat [d1, d2, d3], rest2)
          | none => none
        else if isWordChar d3 then none else some (digitsToNat [d1, d2], rest)
      | [] => some (digitsToNat [d1, d2], [])
    else none
  | _ => none

/-- Greedy `\d{1,3}` immediately followed by `\b`, returning the parsed
number: try three digits, then two, then one. -/
def matchD13WB (cs : List Char) : Option (Nat × List Char) :=
  match cs with
  | [] => none
  | d1 :: rest1 =>
    if d1.isDigit then
      match rest1 with
      | d2 :: _ =>
        if d2.isDigit then
          match matchD23WB cs with
          | some r => some r
          | none => none
        else if isWordChar d2 then none else some (digitsToNat [d1], rest1)
      | [] => some (digitsToNat [d1], [])
    else none

/-- Scan a string left to right for the first position with a word
boundary before it where `m` matches, as JS `String.prototype.match`
does with a `\b`-anchored pattern; `prevW` says whether the previous
character was a word character. -/
def scanFirst (m : List Char → Option Nat) : Bool → List Char → Option Nat
  | _, [] => none
  | prevW, c :: rest =>
    match (if prevW then none else m (c :: rest)) with
    | some n => some n
    | none => scanFirst m (isWordChar c) rest

/-- Matcher body for `/\bTOP\s*(\d{2,3})\b/i` at one position. -/
def matchTopNum (cs : List Char) : Option Nat :=
  (litCI ['t', 'o', 'p'] cs).bind fun cs1 => (matchD23WB (munchWs cs1)).map (·.1)

/-- Matcher body for `/\bHOT\s*(\d{2,3})\b/i` at one position. -/
def matchHotNum (cs : List Char) : Option Nat :=
  (litCI ['h', 'o', 't'] cs).bind fun cs1 => (matchD23WB (munchWs cs1)).map (·.1)

/-- Matcher body for `/\btop[_ -]?(\d{2,3})\b/i` at one position: the
optional separator is greedy, with backtracking to the empty branch. -/
def matchTopFileNum (cs : List Char) : Option Nat :=
  (litCI ['t', 'o', 'p'] cs).bind fun cs1 =>
    match cs1 with
    | c :: rest =>
      if c = '_' ∨ c = ' ' ∨ c = '-' then
        match matchD23WB rest with
        | some r => some r.1
        | none => (matchD23WB cs1).map (·.1)
      else (matchD23WB cs1).map (·.1)
    | [] => none

/-- Embedding of `clampExpectedMaxRank`: `Math.floor` and the finiteness
check are identities on `Nat`; values outside `[2, 200]` are rejected. -/
def clampExpectedMaxRank (value : Option Nat) : Option Nat :=
  match value with
  | none => none
  | some n => if n < 2 ∨ 200 < n then none else some n

/-- Embedding of `inferExpectedMaxRankFromTitle`: trim, then take the
first `TOP nn(n)` match, else the first `HOT nn(n)` match, clamped. -/
def inferExpectedMaxRankFromTitle (chartTitle : String) : Option Nat :=
  let text := jsTrim chartTitle.data
  if text.isEmpty then none
  else
    match scanFirst matchTopNum false text with
    | some n => clampExpectedMaxRank (some n)
    | none =>
      match scanFirst matchHotNum false text with
      | some n => clampExpectedMaxRank (some n)
      | none => none

/-- Embedding of `inferExpectedMaxRankFromFilename`. -/
def inferExpectedMaxRankFromFilename (filename : String) : Option Nat :=
  let text := jsTrim filename.data
  if text.isEmpty then none
  else
    match scanFirst matchTopFileNum false text with
    | some n => clampExpectedMaxRank (some n)
    | none => none

/-- Guard `args.sourceFilename ? infer(...) : null` from the source:
a missing or empty (JS-falsy) filename hint yields no inference. -/
def inferFromFilenameHint (sourceFilename : Option String) : Option Nat :=
  match sourceFilename with
  | some f => if f.isEmpty then none else inferExpectedMaxRankFromFilename f
  | none => none

/-- Embedding of `ExtractedRow` (src/apps/server/src/types.ts): the text
fields are strings and the four raw rank fields are nullable strings. -/
structure ExtractedRow where
  chartTitle : String
  chartSection : String
  thisWeekRank : Option String
  lastWeekRank : Option String
  twoWeeksAgoRank : Option String
  weeksOnChart : Option String
  title : String
  artist : String
  label : String
deriving DecidableEq

/-- Group key `` `${chartSection}|||${chartTitle}` `` used throughout the
worker and the completeness checker. -/
def groupKey (chartSection chartTitle : String) : String :=
  chartSection ++ "|||" ++ chartTitle

/-- Key of a row, as computed inline at each use site of the source. -/
def rowKey (row : ExtractedRow) : String :=
  groupKey row.chartSection row.chartTitle

/-- One entry of the `groups` map of `findMissingChartGroups`, paired
with its key; entries are kept in first-seen key order (`orderedKeys`). -/
structure RowGroup where
  key : String
  chartTitle : String
  chartSection : String
  rows : List ExtractedRow
deriving DecidableEq

/-- One step of the grouping loop of `findMissingChartGroups`: append the
row to its group if the key is already present, otherwise create the
group at the end (first-seen order). -/
def addRowToGroups (gs : List RowGroup) (row : ExtractedRow) : List RowGroup :=
  if gs.any (fun g => g.key = rowKey row) then
    gs.map (fun g => if g.key = rowKey row then { g with rows := g.rows ++ [row] } else g)
  else
    gs ++ [{ key := rowKey row, chartTitle := row.chartTitle,
             chartSection := row.chartSection, rows := [row] }]

/-- The grouping pass of `findMissingChartGroups` (lines 70-84). -/
def groupRows (rows : List ExtractedRow) : List RowGroup :=
  rows.foldl addRowToGroups []

/-- Embedding of the `MissingChartGroup` record. -/
structure MissingChartGroup where
  chartTitle : String
  chartSection : String
  expectedMaxRank : Nat
  minRank : Nat
  maxRank : Nat
  expectedRowCount : Nat
  actualRowCount : Nat
  missingThisWeekRanks : List Nat
deriving DecidableEq

/-- `Math.min(...ranks)` on a non-empty list (the empty case is guarded
out in the source before the call). -/
def ranksMin : List Nat → Nat
  | [] => 0
  | x :: xs => xs.foldl min x

/-- `Math.max(...ranks)` on a non-empty list. -/
def ranksMax : List Nat → Nat
  | [] => 0
  | x :: xs => xs.foldl max x

/-- The numeric this-week ranks of a group:
`group.rows.map((r) => coerceRank(r.thisWeekRank)).filter(n => n != null)`. -/
def ranksOf (g : RowGroup) : List Nat :=
  g.rows.filterMap (fun r => coerceRank r.thisWeekRank)

/-- Body of the per-group loop of `findMissingChartGroups` (lines
88-126): `none` models `continue`, `some` models pushing a missing-group
record. -/
def processGroup (sourceFilename : Option String) (g : RowGroup) :
    Option MissingChartGroup :=
  let ranks := ranksOf g
  if ranks.isEmpty then none
  else
    let minRank := ranksMin ranks
    let maxRank := ranksMax ranks
    let expectedFromTitle := inferExpectedMaxRankFromTitle g.chartTitle
    let expectedFromFilename := inferFromFilenameHint sourceFilename
    match clampExpectedMaxRank
        (expectedFromTitle.orElse fun _ =>
          expectedFromFilename.orElse fun _ => some maxRank) with
    | none => none
    | some expectedMaxRank =>
      let finalExpectedMax := max expectedMaxRank maxRank
      if finalExpectedMax < minRank then none
      else
        let expectedRowCount := finalExpectedMax - minRank + 1
        let actualRowCount := g.rows.length
        if expectedRowCount ≤ actualRowCount then none
        else
          some { chartTitle := g.chartTitle
                 chartSection := g.chartSection
                 expectedMaxRank := finalExpectedMax
                 minRank := minRank
                 maxRank := maxRank
                 expectedRowCount := expectedRowCount
                 actualRowCount := actualRowCount
                 missingThisWeekRanks :=
                   (List.range' minRank expectedRowCount).filter
                     (fun r => ¬ ranks.contains r) }

/-- Embedding of `findMissingChartGroups`
(src/apps/server/src/utils/extractionCompleteness.ts): group the rows in
first-seen key order and collect the groups the per-group loop reports. -/
def findMissingChartGroups (rows : List ExtractedRow)
    (sourceFilename : Option String) : List MissingChartGroup :=
  (groupRows rows).filterMap (processGroup sourceFilename)

theorem foldl_min_le_init (l : List Nat) : ∀ init : Nat, l.foldl min init ≤ init := by
  induction l with
  | nil => intro init; exact le_refl _
  | cons x xs ih =>
    intro init
    exact le_trans (ih (min init x)) (min_le_left _ _)

theorem foldl_min_le_mem (l : List Nat) :
    ∀ init : Nat, ∀ x ∈ l, l.foldl min init ≤ x := by
  induction l with
  | nil => intro _ x hx; cases hx
  | cons y xs ih =>
    intro init x hx
    rcases List.mem_cons.mp hx with h | h
    · subst h
      exact le_trans (foldl_min_le_init xs (min init x)) (min_le_right _ _)
    · exact ih (min init y) x h

theorem init_le_foldl_max (l : List Nat) : ∀ init : Nat, init ≤ l.foldl max init := by
  induction l with
  | nil => intro init; exact le_refl _
  | cons x xs ih =>
    intro init
    exact le_trans (le_max_left _ _) (ih (max init x))

theorem mem_le_foldl_max (l : List Nat) :
    ∀ init : Nat, ∀ x ∈ l, x ≤ l.foldl max init := by
  induction l with
  | nil => intro _ x hx; cases hx
  | cons y xs ih =>
    intro init x hx
    rcases List.mem_cons.mp hx with h | h
    · subst h
      exact le_trans (le_max_right _ _) (init_le_foldl_max xs (max init x))
    · exact ih (max init y) x h

theorem ranksMin_le {l : List Nat} {x : Nat} (hx : x ∈ l) : ranksMin l ≤ x := by
  cases l with
  | nil => cases hx
  | cons y xs =>
    rcases List.mem_cons.mp hx with h | h
    · subst h; exact foldl_min_le_init xs x
    · exact foldl_min_le_mem xs y x h

theorem le_ranksMax {l : List Nat} {x : Nat} (hx : x ∈ l) : x ≤ ranksMax l := by
  cases l with
  | nil => cases hx
  | cons y xs =>
    rcases List.mem_cons.mp hx with h | h
    · subst h; exact init_le_foldl_max xs x
    · exact mem_le_foldl_max xs y x h

theorem ranksMin_le_ranksMax {l : List Nat} (h : l ≠ []) :
    ranksMin l ≤ ranksMax l := by
  cases l with
  | nil => exact absurd rfl h
  | cons y xs =>
    exact le_trans (ranksMin_le (List.mem_cons_self y xs)) (le_ranksMax (List.mem_cons_self y xs))

theorem processGroup_eq_of_clamp (fn : Option String) (g : RowGroup) (e : Nat)
    (h1 : ranksOf g ≠ [])
    (h2 : clampExpectedMaxRank
        ((inferExpectedMaxRankFromTitle g.chartTitle).orElse fun _ =>
          (inferFromFilenameHint fn).orElse fun _ => some (ranksMax (ranksOf g))) = some e) :
    processGroup fn g =
      (if max e (ranksMax (ranksOf g)) - ranksMin (ranksOf g) + 1 ≤ g.rows.length then none
       else some { chartTitle := g.chartTitle
                   chartSection := g.chartSection
                   expectedMaxRank := max e (ranksMax (ranksOf g))
                   minRank := ranksMin (ranksOf g)
                   maxRank := ranksMax (ranksOf g)
                   expectedRowCount := max e (ranksMax (ranksOf g)) - ranksMin (ranksOf g) + 1
                   actualRowCount := g.rows.length
                   missingThisWeekRanks :=
                     (List.range' (ranksMin (ranksOf g)) (max e (ranksMax (ranksOf g)) - ranksMin (ranksOf g) + 1)).filter
                       (fun r => ¬ (ranksOf g).contains r) }) := by
  have hne : (ranksOf g).isEmpty = false := by
    simpa [List.isEmpty_iff] using h1
  have hguard : ¬ (max e (ranksMax (ranksOf g)) < ranksMin (ranksOf g)) := by
    have := ranksMin_le_ranksMax h1
    omega
  unfold processGroup
  simp only [hne, Bool.false_eq_true, if_false, h2, if_neg hguard]

theorem addRowToGroups_key_eq (gs : List RowGroup) (row : ExtractedRow)
    (h : ∀ g ∈ gs, g.key = groupKey g.chartSection g.chartTitle) :
    ∀ g ∈ addRowToGroups gs row, g.key = groupKey g.chartSection g.chartTitle := by
  intro g hg
  unfold addRowToGroups at hg
  by_cases hany : gs.any (fun g => g.key = rowKey row)
  · rw [if_pos hany] at hg
    rcases List.mem_map.mp hg with ⟨g0, hg0, rfl⟩
    by_cases hk : g0.key = rowKey row
    · simpa [hk] using h g0 hg0
    · simpa [hk] using h g0 hg0
  · rw [if_neg hany] at hg
    rcases List.mem_append.mp hg with hmem | hmem
    · exact h g hmem
    · rcases List.mem_singleton.mp hmem with rfl
      rfl

theorem foldl_addRow_key (rows : List ExtractedRow) :
    ∀ gs : List RowGroup,
      (∀ g ∈ gs, g.key = groupKey g.chartSection g.chartTitle) →
      ∀ g ∈ rows.foldl addRowToGroups gs, g.key = groupKey g.chartSection g.chartTitle := by
  induction rows with
  | nil => intro gs h; exact h
  | cons row rows ih =>
    intro gs h
    exact ih (addRowToGroups gs row) (addRowToGroups_key_eq gs row h)

theorem groupRows_key_eq (rows : List ExtractedRow) :
    ∀ g ∈ groupRows rows, g.key = groupKey g.chartSection g.chartTitle :=
  foldl_addRow_key rows [] (by intro g hg; cases hg)

theorem addRowToGroups_keys_nodup (gs : List RowGroup) (row : ExtractedRow)
    (h : (gs.map (fun g => g.key)).Nodup) :
    ((addRowToGroups gs row).map (fun g => g.key)).Nodup := by
  unfold addRowToGroups
  by_cases hany : gs.any (fun g => g.key = rowKey row)
  · rw [if_pos hany]
    have : (gs.map (fun g => if g.key = rowKey row then { g with rows := g.rows ++ [row] } else g)).map (fun g => g.key) = gs.map (fun g => g.key) := by
      rw [List.map_map]
      apply List.map_congr_left
      intro g _
      by_cases hk : g.key = rowKey row <;> simp [hk]
    rw [this]
    exact h
  · rw [if_neg hany]
    rw [List.map_append]
    simp only [List.map_cons, List.map_nil]
    apply List.Nodup.append h (List.nodup_singleton _)
    intro k hk1 hk2
    rcases List.mem_singleton.mp hk2 with rfl
    rcases List.mem_map.mp hk1 with ⟨g0, hg0, hk⟩
    exact hany (List.any_eq_true.mpr ⟨g0, hg0, by simp [hk]⟩)

theorem groupRows_keys_nodup (rows : List ExtractedRow) :
    ((groupRows rows).map (fun g => g.key)).Nodup := by
  suffices h : ∀ gs : List RowGroup, (gs.map (fun g => g.key)).Nodup →
      ((rows.foldl addRowToGroups gs).map (fun g => g.key)).Nodup by
    exact h [] (by simp)
  induction rows with
  | nil => intro gs h; exact h
  | cons row rows ih =>
    intro gs h
    exact ih (addRowToGroups gs row) (addRowToGroups_keys_nodup gs row h)

theorem eq_of_mem_of_key_eq :
    ∀ (gs : List RowGroup), (gs.map (fun g => g.key)).Nodup →
      ∀ g ∈ gs, ∀ g2 ∈ gs, g.key = g2.key → g = g2 := by
  intro gs
  induction gs with
  | nil => intro _ g hg; cases hg
  | cons a l ih =>
    intro hnd g hg g2 hg2 hk
    simp only [List.map_cons, List.nodup_cons] at hnd
    rcases List.mem_cons.mp hg with rfl | hgl
    · rcases List.mem_cons.mp hg2 with rfl | hg2l
      · rfl
      · exact absurd (List.mem_map.mpr ⟨g2, hg2l, hk.symm⟩) hnd.1
    · rcases List.mem_cons.mp hg2 with rfl | hg2l
      · exact absurd (List.mem_map.mpr ⟨g, hgl, hk⟩) hnd.1
      · exact ih hnd.2 g hgl g2 hg2l hk

theorem processGroup_some_fields {fn : Option String} {g : RowGroup} {m : MissingChartGroup}
    (h : processGroup fn g = some m) :
    m.chartTitle = g.chartTitle ∧ m.chartSection = g.chartSection := by
  unfold processGroup at h
  dsimp only at h
  split at h
  · cases h
  · split at h
    · cases h
    · split at h
      · cases h
      · split at h
        · cases h
        · cases h
          exact ⟨rfl, rfl⟩

def exampleRow (chartTitle thisWeek : String) : ExtractedRow :=
  { chartTitle := chartTitle, chartSection := "", thisWeekRank := some thisWeek,
    lastWeekRank := none, twoWeeksAgoRank := none, weeksOnChart := none,
    title := "T", artist := "A", label := "L" }

def exampleRanks1245 : List ExtractedRow :=
  [exampleRow "DISCO ACTION" "1", exampleRow "DISCO ACTION" "2",
   exampleRow "DISCO ACTION" "4", exampleRow "DISCO ACTION" "5"]

def exampleGroup1245 : RowGroup :=
  { key := groupKey "" "DISCO ACTION", chartTitle := "DISCO ACTION",
    chartSection := "", rows := exampleRanks1245 }

def exampleRankOneOnly : List ExtractedRow := [exampleRow "CHART X" "1"]

def exampleGroupRank1 : RowGroup :=
  { key := groupKey "" "CHART X", chartTitle := "CHART X",
    chartSection := "", rows := exampleRankOneOnly }

/-- C3: membership in `findMissingChartGroups` is exactly per-group
reporting; for a group with at least one numeric this-week rank and a
valid clamped expected max `e`, the checker uses
`finalExpectedMax = max e observedMax`, reports the group iff the actual
row count is below `finalExpectedMax - observedMin + 1`, and reports as
missing exactly the integers of `[observedMin, finalExpectedMax]` absent
from the observed ranks; ranks {1,2,4,5} with inferred max 5 yield the
single missing rank 3. -/
theorem findMissingChartGroups_gap_spec :
    (∀ (rows : List ExtractedRow) (fn : Option String) (m : MissingChartGroup),
      m ∈ findMissingChartGroups rows fn ↔
        ∃ g, g ∈ groupRows rows ∧ processGroup fn g = some m) ∧
    (∀ (fn : Option String) (g : RowGroup) (e : Nat),
      ranksOf g ≠ [] →
      clampExpectedMaxRank
          ((inferExpectedMaxRankFromTitle g.chartTitle).orElse fun _ =>
            (inferFromFilenameHint fn).orElse fun _ => some (ranksMax (ranksOf g))) = some e →
      (((processGroup fn g).isSome ↔
          g.rows.length < max e (ranksMax (ranksOf g)) - ranksMin (ranksOf g) + 1) ∧
        ∀ m, processGroup fn g = some m →
          m.expectedMaxRank = max e (ranksMax (ranksOf g)) ∧
          m.expectedRowCount = max e (ranksMax (ranksOf g)) - ranksMin (ranksOf g) + 1 ∧
          ∀ r : Nat, r ∈ m.missingThisWeekRanks ↔
            (ranksMin (ranksOf g) ≤ r ∧ r ≤ max e (ranksMax (ranksOf g)) ∧ r ∉ ranksOf g))) ∧
    (findMissingChartGroups exampleRanks1245 none).map
      (fun m => m.missingThisWeekRanks) = [[3]] := by
  refine ⟨?_, ?_, by decide⟩
  · intro rows fn m
    exact List.mem_filterMap
  · intro fn g e h1 h2
    have heq := processGroup_eq_of_clamp fn g e h1 h2
    have hmm : ranksMin (ranksOf g) ≤ ranksMax (ranksOf g) := ranksMin_le_ranksMax h1
    have hmf : ranksMax (ranksOf g) ≤ max e (ranksMax (ranksOf g)) := le_max_right _ _
    constructor
    · rw [heq]
      by_cases hc : max e (ranksMax (ranksOf g)) - ranksMin (ranksOf g) + 1 ≤ g.rows.length
      · rw [if_pos hc]
        simp only [Option.isSome_none, Bool.false_eq_true, false_iff]
        omega
      · rw [if_neg hc]
        simp only [Option.isSome_some, true_iff]
        omega
    · intro m hm
      rw [heq] at hm
      split at hm
      · cases hm
      · have hme := Option.some.inj hm
        subst hme
        refine ⟨rfl, rfl, ?_⟩
        intro r
        simp only [List.mem_filter, List.mem_range'_1, decide_eq_true_eq,
          List.elem_iff]
        constructor
        · rintro ⟨⟨hr1, hr2⟩, hr3⟩
          exact ⟨hr1, by omega, hr3⟩
        · rintro ⟨hr1, hr2, hr3⟩
          exact ⟨⟨hr1, by omega⟩, hr3⟩

/-- C9: when a group's observed maximum rank lies outside [2, 200] and
neither the chart title nor the filename hint yields a clamped TOP/HOT
number, the plausibility clamp returns null, the group is skipped, and no
entry for its chart section/title pair is ever reported; in particular a
group whose only rank is 1 is never flagged. -/
theorem findMissingChartGroups_implausible_skipped :
    (∀ (rows : List ExtractedRow) (fn : Option String) (g : RowGroup),
      g ∈ groupRows rows →
      ranksOf g ≠ [] →
      (ranksMax (ranksOf g) < 2 ∨ 200 < ranksMax (ranksOf g)) →
      inferExpectedMaxRankFromTitle g.chartTitle = none →
      inferFromFilenameHint fn = none →
      processGroup fn g = none ∧
        ∀ m ∈ findMissingChartGroups rows fn,
          ¬ (m.chartSection = g.chartSection ∧ m.chartTitle = g.chartTitle)) ∧
    findMissingChartGroups exampleRankOneOnly none = [] := by
  refine ⟨?_, by decide⟩
  intro rows fn g hg h1 hout hTitle hFn
  have hne : (ranksOf g).isEmpty = false := by simpa [List.isEmpty_iff] using h1
  have hpg : processGroup fn g = none := by
    unfold processGroup
    dsimp only
    rw [hne]
    simp only [Bool.false_eq_true, if_false, hTitle, hFn, Option.orElse,
      clampExpectedMaxRank]
    rw [if_pos hout]
  refine ⟨hpg, ?_⟩
  intro m hm hcontra
  rcases List.mem_filterMap.mp hm with ⟨g2, hg2, hpg2⟩
  have hfields := processGroup_some_fields hpg2
  have hkey2 := groupRows_key_eq rows g2 hg2
  have hkey := groupRows_key_eq rows g hg
  have hkk : g2.key = g.key := by
    rw [hkey2, hkey, ← hfields.1, ← hfields.2, hcontra.1, hcontra.2]
  have : g2 = g := eq_of_mem_of_key_eq (groupRows rows) (groupRows_keys_nodup rows) g2 hg2 g hg hkk
  rw [this, hpg] at hpg2
  cases hpg2

theorem findMissingChartGroups_gap_spec_witness :
    ranksOf exampleGroup1245 ≠ [] ∧
    ((processGroup none exampleGroup1245).isSome ↔
      exampleGroup1245.rows.length <
        max 5 (ranksMax (ranksOf exampleGroup1245)) - ranksMin (ranksOf exampleGroup1245) + 1) :=
  ⟨by decide, (findMissingChartGroups_gap_spec.2.1 none exampleGroup1245 5
      (by decide) (by decide)).1⟩

theorem findMissingChartGroups_implausible_skipped_witness :
    exampleGroupRank1 ∈ groupRows exampleRankOneOnly ∧
    processGroup none exampleGroupRank1 = none :=
  ⟨by decide, (findMissingChartGroups_implausible_skipped.1 exampleRankOneOnly none
      exampleGroupRank1 (by decide) (by decide) (by decide) (by decide) (by decide)).1⟩

/-- JS `Map.get` on an association list. -/
def mapGet {α : Type} : List (String × α) → String → Option α
  | [], _ => none
  | (k0, v) :: t, k => if k0 = k then some v else mapGet t k

/-- JS `Map.set` on an association list: replace the first binding of the
key in place, or append a new binding. -/
def mapSet {α : Type} : List (String × α) → String → α → List (String × α)
  | [], k, v => [(k, v)]
  | (k0, v0) :: t, k, v => if k0 = k then (k, v) :: t else (k0, v0) :: mapSet t k v

/-- JS `Set.add` on a duplicate-free list of numbers. -/
def setAdd (s : List Nat) (r : Nat) : List Nat :=
  if s.contains r then s else s ++ [r]

/-- JS `new Set(list)` membership model. -/
def setOfList (l : List Nat) : List Nat := l.foldl setAdd []

/-- The `missingByKey` map of `mergeMissingRanks` (worker.ts 507-511). -/
def buildMissingByKey (missing : List MissingChartGroup) : List (String × List Nat) :=
  missing.foldl
    (fun m g => mapSet m (groupKey g.chartSection g.chartTitle)
      (setOfList g.missingThisWeekRanks)) []

/-- One step of the `existingRanksByKey` construction (worker.ts 513-524):
skip rows with no numeric rank, otherwise add the rank to the key's
(created-on-demand) set. -/
def addExistingRank (m : List (String × List Nat)) (row : ExtractedRow) :
    List (String × List Nat) :=
  match coerceRank row.thisWeekRank with
  | none => m
  | some rank =>
    let set := (mapGet m (rowKey row)).getD []
    mapSet m (rowKey row) (setAdd set rank)

/-- The `existingRanksByKey` map of `mergeMissingRanks`. -/
def buildExistingRanksByKey (rows : List ExtractedRow) : List (String × List Nat) :=
  rows.foldl addExistingRank []

/-- Loop state of `mergeMissingRanks`. -/
structure MergeState where
  merged : List ExtractedRow
  ranksByKey : List (String × List Nat)
  rowsAdded : Nat

/-- One iteration of the incoming-row loop of `mergeMissingRanks`
(worker.ts 529-544): accept the row only if its group has a non-empty
missing-rank set, its own rank is numeric and a member of that set, and
the rank is not yet present for the group. -/
def mergeStep (missingByKey : List (String × List Nat)) (st : MergeState)
    (row : ExtractedRow) : MergeState :=
  match mapGet missingByKey (rowKey row) with
  | none => st
  | some missingRanks =>
    if missingRanks.isEmpty then st
    else
      match coerceRank row.thisWeekRank with
      | none => st
      | some rank =>
        if ¬ missingRanks.contains rank then st
        else
          let existingRanks := (mapGet st.ranksByKey (rowKey row)).getD []
          if existingRanks.contains rank then st
          else
            { merged := st.merged ++ [row]
              ranksByKey := mapSet st.ranksByKey (rowKey row) (setAdd existingRanks rank)
              rowsAdded := st.rowsAdded + 1 }

/-- Embedding of `mergeMissingRanks` (worker.ts 502-547). -/
def mergeMissingRanks (existing incoming : List ExtractedRow)
    (missing : List MissingChartGroup) : List ExtractedRow × Nat :=
  let missingByKey := buildMissingByKey missing
  let st := incoming.foldl (mergeStep missingByKey)
    { merged := existing, ranksByKey := buildExistingRanksByKey existing, rowsAdded := 0 }
  (st.merged, st.rowsAdded)

/-- Occurrences of a (chart-group key, numeric this-week rank) pair in a
row list. -/
def countPair (rows : List ExtractedRow) (k : String) (r : Nat) : Nat :=
  (rows.filter (fun row => rowKey row = k ∧ coerceRank row.thisWeekRank = some r)).length

theorem mapGet_mapSet {α : Type} (m : List (String × α)) (k k2 : String) (v : α) :
    mapGet (mapSet m k v) k2 = if k = k2 then some v else mapGet m k2 := by
  induction m with
  | nil =>
    by_cases h : k = k2 <;> simp [mapSet, mapGet, h]
  | cons p t ih =>
    obtain ⟨k0, v0⟩ := p
    by_cases h0 : k0 = k
    · subst h0
      by_cases h : k0 = k2 <;> simp [mapSet, mapGet, h]
    · simp only [mapSet, if_neg h0]
      by_cases h2 : k0 = k2
      · subst h2
        have : ¬ k = k0 := fun hk => h0 hk.symm
        simp [mapGet, this]
      · simp [mapGet, h2, ih]

theorem setAdd_contains (s : List Nat) (x y : Nat) :
    ((setAdd s x).contains y = true) ↔ (s.contains y = true ∨ y = x) := by
  unfold setAdd
  by_cases h : s.contains x
  · rw [if_pos h]
    constructor
    · intro hy; exact Or.inl hy
    · rintro (hy | rfl)
      · exact hy
      · exact h
  · rw [if_neg h]
    simp [List.elem_iff]

theorem countPair_cons (row : ExtractedRow) (rows : List ExtractedRow) (k : String) (r : Nat) :
    countPair (row :: rows) k r =
      (if rowKey row = k ∧ coerceRank row.thisWeekRank = some r then 1 else 0) +
        countPair rows k r := by
  unfold countPair
  by_cases h : rowKey row = k ∧ coerceRank row.thisWeekRank = some r
  · rw [List.filter_cons_of_pos (by simpa using h), if_pos h]
    simp only [List.length_cons]
    omega
  · rw [List.filter_cons_of_neg (by simpa using h), if_neg h]
    simp

theorem countPair_append_single (rows : List ExtractedRow) (row : ExtractedRow) (k : String) (r : Nat) :
    countPair (rows ++ [row]) k r =
      countPair rows k r +
        (if rowKey row = k ∧ coerceRank row.thisWeekRank = some r then 1 else 0) := by
  unfold countPair
  rw [List.filter_append, List.length_append]
  congr 1
  by_cases h : rowKey row = k ∧ coerceRank row.thisWeekRank = some r
  · rw [List.filter_cons_of_pos (by simpa using h), if_pos h]
    simp
  · rw [List.filter_cons_of_neg (by simpa using h), if_neg h]
    simp

theorem addExistingRank_get (m : List (String × List Nat)) (row : ExtractedRow) (k : String) (r : Nat) :
    (((mapGet (addExistingRank m row) k).getD []).contains r = true) ↔
      ((((mapGet m k).getD []).contains r = true) ∨
        (rowKey row = k ∧ coerceRank row.thisWeekRank = some r)) := by
  unfold addExistingRank
  cases hc : coerceRank row.thisWeekRank with
  | none => simp [hc]
  | some rank =>
    simp only
    rw [mapGet_mapSet]
    by_cases hk : rowKey row = k
    · rw [if_pos hk, Option.getD_some, setAdd_contains, hk]
      constructor
      · rintro (hy | rfl)
        · exact Or.inl hy
        · exact Or.inr ⟨rfl, rfl⟩
      · rintro (hy | ⟨-, hsome⟩)
        · exact Or.inl hy
        · exact Or.inr (Option.some.inj hsome).symm
    · rw [if_neg hk]
      constructor
      · intro hy; exact Or.inl hy
      · rintro (hy | ⟨hkk, -⟩)
        · exact hy
        · exact absurd hkk hk

theorem buildExisting_aux (rows : List ExtractedRow) :
    ∀ (m : List (String × List Nat)) (c0 : String → Nat → Nat),
      (∀ k r, (((mapGet m k).getD []).contains r = true) ↔ 0 < c0 k r) →
      ∀ k r, (((mapGet (rows.foldl addExistingRank m) k).getD []).contains r = true) ↔
        0 < c0 k r + countPair rows k r := by
  induction rows with
  | nil =>
    intro m c0 h k r
    simpa [countPair] using h k r
  | cons row rows ih =>
    intro m c0 h k r
    have hstep : ∀ k r,
        (((mapGet (addExistingRank m row) k).getD []).contains r = true) ↔
          0 < c0 k r + (if rowKey row = k ∧ coerceRank row.thisWeekRank = some r then 1 else 0) := by
      intro k r
      rw [addExistingRank_get]
      by_cases hcond : rowKey row = k ∧ coerceRank row.thisWeekRank = some r
      · simp [hcond]
      · simp only [if_neg hcond, Nat.add_zero, h k r]
        constructor
        · rintro (hy | hc)
          · exact hy
          · exact absurd hc hcond
        · intro hy; exact Or.inl hy
    have := ih (addExistingRank m row) _ hstep k r
    rw [List.foldl_cons]
    rw [this, countPair_cons]
    omega

theorem buildExisting_contains (existing : List ExtractedRow) (k : String) (r : Nat) :
    (((mapGet (buildExistingRanksByKey existing) k).getD []).contains r = true) ↔
      0 < countPair existing k r := by
  have := buildExisting_aux existing [] (fun _ _ => 0) (by intro k r; simp [mapGet]) k r
  simpa using this

theorem mergeFold_invariant (mBK : List (String × List Nat)) (existing : List ExtractedRow) :
    ∀ (incoming : List ExtractedRow) (st : MergeState),
      (∀ k r, (((mapGet st.ranksByKey k).getD []).contains r = true) ↔
        0 < countPair st.merged k r) →
      (∀ k r,
        countPair st.merged k r ≤ countPair existing k r + 1 ∧
        (0 < countPair existing k r → countPair st.merged k r = countPair existing k r) ∧
        (countPair existing k r < countPair st.merged k r →
          ∃ s, mapGet mBK k = some s ∧ s.contains r = true)) →
      (∃ added, st.merged = existing ++ added) →
      ((∀ k r,
        countPair (incoming.foldl (mergeStep mBK) st).merged k r ≤ countPair existing k r + 1 ∧
        (0 < countPair existing k r →
          countPair (incoming.foldl (mergeStep mBK) st).merged k r = countPair existing k r) ∧
        (countPair existing k r < countPair (incoming.foldl (mergeStep mBK) st).merged k r →
          ∃ s, mapGet mBK k = some s ∧ s.contains r = true)) ∧
       (∃ added, (incoming.foldl (mergeStep mBK) st).merged = existing ++ added)) := by
  intro incoming
  induction incoming with
  | nil =>
    intro st hP hQ hpre
    exact ⟨hQ, hpre⟩
  | cons row incoming ih =>
    intro st hP hQ hpre
    rw [List.foldl_cons]
    by_cases hacc :
      ∃ missingRanks rank,
        mapGet mBK (rowKey row) = some missingRanks ∧
        missingRanks.isEmpty = false ∧
        coerceRank row.thisWeekRank = some rank ∧
        missingRanks.contains rank = true ∧
        ((mapGet st.ranksByKey (rowKey row)).getD []).contains rank = false
    · obtain ⟨missingRanks, rank, hmg, hmne, hcr, hmem, hnotex⟩ := hacc
      have hstep : mergeStep mBK st row =
          { merged := st.merged ++ [row]
            ranksByKey := mapSet st.ranksByKey (rowKey row)
              (setAdd ((mapGet st.ranksByKey (rowKey row)).getD []) rank)
            rowsAdded := st.rowsAdded + 1 } := by
        unfold mergeStep
        rw [hmg]
        dsimp only
        simp only [hmne, Bool.false_eq_true, if_false, hcr]
        rw [if_neg (fun hc => hc hmem)]
        simp only [hnotex, Bool.false_eq_true, if_false]
      rw [hstep]
      have hcount0 : countPair st.merged (rowKey row) rank = 0 := by
        by_contra hc
        have : ((mapGet st.ranksByKey (rowKey row)).getD []).contains rank = true :=
          (hP (rowKey row) rank).mpr (Nat.pos_of_ne_zero hc)
        rw [this] at hnotex
        cases hnotex
      have hex0 : countPair existing (rowKey row) rank = 0 := by
        by_contra hc
        have := (hQ (rowKey row) rank).2.1 (Nat.pos_of_ne_zero hc)
        omega
      apply ih
      · -- P is preserved
        intro k r
        simp only
        rw [mapGet_mapSet, countPair_append_single]
        by_cases hk : rowKey row = k
        · rw [if_pos hk]
          rw [Option.getD_some, setAdd_contains]
          subst hk
          rw [hP (rowKey row) r]
          by_cases hr : r = rank
          · subst hr
            rw [if_pos (And.intro rfl hcr)]
            simp [hcount0]
          · have hcond : ¬ (rowKey row = rowKey row ∧ coerceRank row.thisWeekRank = some r) := by
              rintro ⟨-, hco⟩
              rw [hcr] at hco
              exact hr (Option.some.inj hco).symm
            rw [if_neg hcond]
            constructor
            · rintro (hy | hy)
              · omega
              · exact absurd hy hr
            · intro hy
              exact Or.inl (by omega)
        · rw [if_neg hk]
          rw [hP k r]
          have hcond : ¬ (rowKey row = k ∧ coerceRank row.thisWeekRank = some r) := by
            rintro ⟨hkk, -⟩
            exact hk hkk
          rw [if_neg hcond]
          omega
      · -- Q is preserved
        intro k r
        rw [countPair_append_single]
        by_cases hcond : rowKey row = k ∧ coerceRank row.thisWeekRank = some r
        · obtain ⟨hk, hco⟩ := hcond
          rw [hcr] at hco
          have hr : rank = r := Option.some.inj hco
          subst hr
          subst hk
          rw [if_pos ⟨rfl, hcr⟩]
          refine ⟨by omega, by omega, ?_⟩
          intro _
          exact ⟨missingRanks, hmg, hmem⟩
        · rw [if_neg hcond, Nat.add_zero]
          exact hQ k r
      · -- merged stays an extension of existing
        obtain ⟨added, hadded⟩ := hpre
        exact ⟨added ++ [row], by rw [hadded, List.append_assoc]⟩
    · have hstep : mergeStep mBK st row = st := by
        unfold mergeStep
        cases hmg : mapGet mBK (rowKey row) with
        | none => rfl
        | some missingRanks =>
          simp only
          by_cases hmne : missingRanks.isEmpty
          · rw [if_pos hmne]
          · rw [if_neg hmne]
            cases hcr : coerceRank row.thisWeekRank with
            | none => rfl
            | some rank =>
              simp only
              by_cases hmem : missingRanks.contains rank = true
              · rw [if_neg (by simpa using hmem)]
                by_cases hnotex : ((mapGet st.ranksByKey (rowKey row)).getD []).contains rank = true
                · rw [if_pos hnotex]
                · exact absurd ⟨missingRanks, rank, hmg, by simpa using hmne, hcr,
                    hmem, by simpa using hnotex⟩ hacc
              · rw [if_pos (by simpa using hmem)]
      rw [hstep]
      exact ih st hP hQ hpre

/-- C4: the merged output of `mergeMissingRanks` extends `existingRows`,
each (chart group, numeric this-week rank) pair occurs at most once more
than in `existingRows`, a pair already present in `existingRows` is never
duplicated even if `incomingRows` repeats it, and any accepted addition's
rank is a member of its group's outstanding missing-rank set. -/
theorem mergeMissingRanks_no_duplicates
    (existing incoming : List ExtractedRow) (missing : List MissingChartGroup)
    (k : String) (r : Nat) :
    (∃ added, (mergeMissingRanks existing incoming missing).1 = existing ++ added) ∧
    countPair (mergeMissingRanks existing incoming missing).1 k r ≤ countPair existing k r + 1 ∧
    (0 < countPair existing k r →
      countPair (mergeMissingRanks existing incoming missing).1 k r = countPair existing k r) ∧
    (countPair existing k r < countPair (mergeMissingRanks existing incoming missing).1 k r →
      ∃ s, mapGet (buildMissingByKey missing) k = some s ∧ s.contains r = true) := by
  have hinv := mergeFold_invariant (buildMissingByKey missing) existing incoming
    { merged := existing, ranksByKey := buildExistingRanksByKey existing, rowsAdded := 0 }
    (by intro k r; exact buildExisting_contains existing k r)
    (by intro k r; dsimp only
        exact ⟨Nat.le_succ _, fun _ => rfl, fun h => absurd h (lt_irrefl _)⟩)
    ⟨[], (List.append_nil existing).symm⟩
  unfold mergeMissingRanks
  exact ⟨hinv.2, (hinv.1 k r).1, (hinv.1 k r).2.1, (hinv.1 k r).2.2⟩

def mergeExampleExisting : List ExtractedRow := [exampleRow "DISCO ACTION" "7"]

def mergeExampleIncoming : List ExtractedRow :=
  [exampleRow "DISCO ACTION" "7", exampleRow "DISCO ACTION" "7"]

def mergeExampleMissing : List MissingChartGroup :=
  [{ chartTitle := "DISCO ACTION", chartSection := "", expectedMaxRank := 7,
     minRank := 6, maxRank := 7, expectedRowCount := 2, actualRowCount := 1,
     missingThisWeekRanks := [7] }]

theorem mergeMissingRanks_no_duplicates_witness :
    0 < countPair mergeExampleExisting (groupKey "" "DISCO ACTION") 7 ∧
    countPair (mergeMissingRanks mergeExampleExisting mergeExampleIncoming
        mergeExampleMissing).1 (groupKey "" "DISCO ACTION") 7 =
      countPair mergeExampleExisting (groupKey "" "DISCO ACTION") 7 :=
  ⟨by decide, (mergeMissingRanks_no_duplicates mergeExampleExisting mergeExampleIncoming
      mergeExampleMissing (groupKey "" "DISCO ACTION") 7).2.2.1 (by decide)⟩

/-! Page scoring (src/apps/web/src/useAppState.ts).  The source computes
scores with JS floating-point numbers whose fractional constants are
0.45 and 1/1000; the model multiplies every score by the fixed factor
`scoreScale = 2000`, turning both constants into exact integers
(0.45 = 900/2000 and 1/1000 = 2/2000), so all scores are natural numbers
and every comparison of the source maps to the same comparison of scaled
values. -/

def scoreScale : Nat := 2000

/-- One pass of `normalizePdfTextForScoring`'s
`replaceAll(/\s+/g, ' ')`: collapse every whitespace run to one space;
`prevSpace` records whether the previous character was whitespace. -/
def collapseWsAux : Bool → List Char → List Char
  | _, [] => []
  | prevSpace, c :: rest =>
    if isJsSpace c then
      if prevSpace then collapseWsAux true rest
      else ' ' :: collapseWsAux true rest
    else c :: collapseWsAux false rest

/-- Embedding of `normalizePdfTextForScoring`: collapse whitespace, trim,
lowercase. -/
def normalizePdfTextForScoring (s : String) : List Char :=
  (jsTrim (collapseWsAux false s.data)).map Char.toLower

/-- A regular-expression piece: maps the input suffix to the candidate
remaining suffixes in JS backtracking priority order. -/
def RePiece : Type := List Char → List (List Char)

/-- Sequence a list of pieces, preserving priority order. -/
def reSeqs (ps : List RePiece) : RePiece :=
  fun cs => ps.foldl (fun rests p => rests.flatMap p) [cs]

/-- A case-insensitive literal piece. -/
def reLit (w : String) : RePiece := fun cs =>
  match litCI w.data cs with
  | some r => [r]
  | none => []

/-- The `\s*` piece (maximal munch; always followed by a non-space piece
in the source's patterns). -/
def reWsStar : RePiece := fun cs => [munchWs cs]

/-- A greedy optional piece `(?:...)?`. -/
def reOpt (p : RePiece) : RePiece := fun cs => p cs ++ [cs]

/-- Left-to-right alternation `(?:a|b|...)`. -/
def reAlt (ps : List RePiece) : RePiece :=
  fun cs => (ps.map (fun p => p cs)).flatten

/-- Trailing `\b` after a word character. -/
def reWBend : RePiece := fun cs =>
  match wbAfterWord cs with
  | some r => [r]
  | none => []

/-- Trailing `\b` after a non-word character (as in `\bin\.\b`): the next
character must be a word character. -/
def reWBnonword : RePiece := fun cs =>
  match cs with
  | [] => []
  | c :: _ => if isWordChar c then [cs] else []

/-- Greedy `\d{2,3}` piece (without a boundary): three digits first,
then two. -/
def reD23 : RePiece := fun cs =>
  match cs with
  | d1 :: d2 :: d3 :: rest =>
    if d1.isDigit ∧ d2.isDigit then
      if d3.isDigit then [rest, d3 :: rest] else [d3 :: rest]
    else []
  | [d1, d2] => if d1.isDigit ∧ d2.isDigit then [[]] else []
  | _ => []

/-- Negative lookahead `(?!...)`: zero-width, succeeds iff the inner
piece has no match here. -/
def reNegLookahead (p : RePiece) : RePiece :=
  fun cs => if (p cs).isEmpty then [cs] else []

/-- The JS match of a pattern at one position: the first candidate. -/
def reMatch (p : RePiece) : List Char → Option (List Char) :=
  fun cs => (p cs).head?

/-- Fuel-driven translation of `countRegexMatches`'s `exec` loop: at each
position with a word boundary before it, try the matcher; on a match,
count it and resume after the consumed characters; otherwise advance one
character.  The patterns of the source never match the empty string, so
fuel `length + 1` is enough for the whole scan. -/
def scanCountAux (m : List Char → Option (List Char)) :
    Nat → Bool → List Char → Nat → Nat → Nat
  | 0, _, _, _, acc => acc
  | fuel + 1, prevW, cs, limit, acc =>
    if limit ≤ acc then acc
    else
      match cs with
      | [] => acc
      | c :: rest =>
        match (if prevW then none else m (c :: rest)) with
        | some rest2 =>
          let consumed := (c :: rest).take ((c :: rest).length - rest2.length)
          scanCountAux m fuel
            (match consumed.getLast? with
             | some d => isWordChar d
             | none => isWordChar c)
            rest2 limit (acc + 1)
        | none => scanCountAux m fuel (isWordChar c) rest limit acc

/-- Embedding of `countRegexMatches` for a `\b`-leading pattern. -/
def countRegexMatches (m : List Char → Option (List Char))
    (text : List Char) (limit : Nat) : Nat :=
  scanCountAux m (text.length + 1) false text limit 0

/-- Embedding of `countLikelyRankNumbers`'s `/\b\d{1,3}\b/g` loop: every
match advances the scan; only values in `[1, 200]` are counted, and the
loop stops once `limit` values were counted. -/
def countLikelyRankNumbersAux : Nat → Bool → List Char → Nat → Nat → Nat
  | 0, _, _, _, acc => acc
  | fuel + 1, prevW, cs, limit, acc =>
    match cs with
    | [] => acc
    | c :: rest =>
      match (if prevW then none else matchD13WB (c :: rest)) with
      | some nr =>
        if 1 ≤ nr.1 ∧ nr.1 ≤ 200 then
          if limit ≤ acc + 1 then acc + 1
          else countLikelyRankNumbersAux fuel true nr.2 limit (acc + 1)
        else countLikelyRankNumbersAux fuel true nr.2 limit acc
      | none => countLikelyRankNumbersAux fuel (isWordChar c) rest limit acc

/-- Embedding of `countLikelyRankNumbers`. -/
def countLikelyRankNumbers (text : List Char) (limit : Nat) : Nat :=
  countLikelyRankNumbersAux (text.length + 1) false text limit 0

/-- Pattern `/\bthis\s*week\b/i`. -/
def reThisWeek : RePiece := reSeqs [reLit "this", reWsStar, reLit "week", reWBend]

/-- Pattern `/\blast\s*week\b/i`. -/
def reLastWeek : RePiece := reSeqs [reLit "last", reWsStar, reLit "week", reWBend]

/-- Pattern `/\btwo\s*weeks?\s*ago\b/i`. -/
def reTwoWeeksAgo : RePiece :=
  reSeqs [reLit "two", reWsStar, reLit "week", reOpt (reLit "s"), reWsStar,
    reLit "ago", reWBend]

/-- Pattern `/\bweeks?\s*on\s*chart\b/i`. -/
def reWeeksOnChart : RePiece :=
  reSeqs [reLit "week", reOpt (reLit "s"), reWsStar, reLit "on", reWsStar,
    reLit "chart", reWBend]

/-- Pattern `/\bwks?\s*on\s*chart\b/i`. -/
def reWksOnChart : RePiece :=
  reSeqs [reLit "wk", reOpt (reLit "s"), reWsStar, reLit "on", reWsStar,
    reLit "chart", reWBend]

/-- Pattern `/\bpeak\s*position\b/i`. -/
def rePeakPosition : RePiece := reSeqs [reLit "peak", reWsStar, reLit "position", reWBend]

/-- Pattern `/\bbillboard\b/i`. -/
def reBillboard : RePiece := reSeqs [reLit "billboard", reWBend]

/-- Pattern `/\bchart\b/i`. -/
def reChartWord : RePiece := reSeqs [reLit "chart", reWBend]

/-- Pattern `/\bartist\b/i`. -/
def reArtistWord : RePiece := reSeqs [reLit "artist", reWBend]

/-- Pattern `/\btitle\b/i`. -/
def reTitleWord : RePiece := reSeqs [reLit "title", reWBend]

/-- Pattern `/\blabel\b/i`. -/
def reLabelWord : RePiece := reSeqs [reLit "label", reWBend]

/-- Pattern `/\bhot\s*100\b/i`. -/
def reHot100 : RePiece := reSeqs [reLit "hot", reWsStar, reLit "100", reWBend]

/-- The weighted keyword table of `scorePdfTextForChartPicker` (weights
pre-multiplied by `scoreScale`; `cap` is the per-pattern match bound). -/
def basePatterns : List (RePiece × Nat × Nat) :=
  [(reThisWeek, 70 * scoreScale, 2),
   (reLastWeek, 60 * scoreScale, 2),
   (reTwoWeeksAgo, 45 * scoreScale, 2),
   (reWeeksOnChart, 85 * scoreScale, 2),
   (reWksOnChart, 85 * scoreScale, 2),
   (rePeakPosition, 35 * scoreScale, 2),
   (reBillboard, 18 * scoreScale, 4),
   (reChartWord, 12 * scoreScale, 6),
   (reArtistWord, 14 * scoreScale, 6),
   (reTitleWord, 14 * scoreScale, 6),
   (reLabelWord, 14 * scoreScale, 6),
   (reHot100, 28 * scoreScale, 2)]

/-- `(?:dance(?:\s*music)?|disco)` (first component of the pair). -/
def reDanceDiscoAlt1 : RePiece :=
  reAlt [reSeqs [reLit "dance", reOpt (reSeqs [reWsStar, reLit "music"])], reLit "disco"]

/-- `(?:disco|dance(?:\s*music)?)` (second component of the pair). -/
def reDanceDiscoAlt2 : RePiece :=
  reAlt [reLit "disco", reSeqs [reLit "dance", reOpt (reSeqs [reWsStar, reLit "music"])]]

/-- `\s*(?:\/|&|and|\+|-)\s*` (the pair separator). -/
def rePairSep : RePiece :=
  reSeqs [reWsStar,
    reAlt [reLit "/", reLit "&", reLit "and", reLit "+", reLit "-"], reWsStar]

/-- The shared core `(?:dance(?:\s*music)?|disco)\s*(?:\/|&|and|\+|-)\s*(?:disco|dance(?:\s*music)?)`. -/
def rePairCore : RePiece := reSeqs [reDanceDiscoAlt1, rePairSep, reDanceDiscoAlt2]

/-- `DISCO_DANCE_PAIR_RE`. -/
def reDiscoDancePair : RePiece := reSeqs [rePairCore, reWBend]

/-- `HOT_DISCO_DANCE_PAIR_RE`. -/
def reHotDiscoDancePair : RePiece := reSeqs [reLit "hot", reWsStar, rePairCore, reWBend]

/-- `DISCO_DANCE_TOP_WITH_NUMBER_RE`. -/
def reDiscoDanceTopWithNumber : RePiece :=
  reSeqs [rePairCore, reWsStar, reLit "top", reWsStar, reD23, reWBend]

/-- `DISCO_DANCE_TOP_NO_NUMBER_RE`: `...\s*top\b(?!\s*\d{2,3}\b)`. -/
def reDiscoDanceTopNoNumber : RePiece :=
  reSeqs [rePairCore, reWsStar, reLit "top", reWBend,
    reNegLookahead (reSeqs [reWsStar, reD23, reWBend])]

/-- `DISCO_TOP_WITH_NUMBER_RE`. -/
def reDiscoTopWithNumber : RePiece :=
  reSeqs [reLit "disco", reWsStar, reLit "top", reWsStar, reD23, reWBend]

/-- `DISCO_TOP_NO_NUMBER_RE`. -/
def reDiscoTopNoNumber : RePiece :=
  reSeqs [reLit "disco", reWsStar, reLit "top", reWBend,
    reNegLookahead (reSeqs [reWsStar, reD23, reWBend])]

/-- `/\bclub\s*play\b/i`. -/
def reClubPlay : RePiece := reSeqs [reLit "club", reWsStar, reLit "play", reWBend]

/-- `/\b12\s*inch\b/i`. -/
def reTwelveInch : RePiece := reSeqs [reLit "12", reWsStar, reLit "inch", reWBend]

/-- `/\b12\s*in\.\b/i` — the final `\b` follows the non-word `.`, so the
next character must be a word character. -/
def reTwelveInDot : RePiece :=
  reSeqs [reLit "12", reWsStar, reLit "in", reLit ".", reWBnonword]

/-- Embedding of `scoreDiscoDancePreferenceBoost` (useAppState.ts
758-794), scaled by `scoreScale`: zero unless the page already looks
chart-like (base score at least 140, or at least 18 likely rank
numbers); otherwise a weighted sum of header-phrase match counts. -/
def scoreDiscoDancePreferenceBoost (text : List Char) (baseScore : Nat)
    (rankNumbers : Nat) : Nat :=
  if baseScore < 140 * scoreScale ∧ rankNumbers < 18 then 0
  else
    countRegexMatches (reMatch reClubPlay) text 2 * (5200 * scoreScale) +
    countRegexMatches (reMatch reHotDiscoDancePair) text 2 * (5600 * scoreScale) +
    countRegexMatches (reMatch reDiscoDanceTopWithNumber) text 2 * (5600 * scoreScale) +
    countRegexMatches (reMatch reDiscoTopWithNumber) text 2 * (5600 * scoreScale) +
    countRegexMatches (reMatch reDiscoDanceTopNoNumber) text 2 * (4200 * scoreScale) +
    countRegexMatches (reMatch reDiscoTopNoNumber) text 2 * (4200 * scoreScale) +
    countRegexMatches (reMatch reDiscoDancePair) text 3 * (1800 * scoreScale) +
    countRegexMatches (reMatch reTwelveInch) text 2 * (900 * scoreScale) +
    countRegexMatches (reMatch reTwelveInDot) text 2 * (900 * scoreScale)

/-- Result record of `scorePdfTextForChartPicker` (scores scaled by
`scoreScale`). -/
structure ScoredText where
  baseScore : Nat
  effectiveScore : Nat
  discoDanceBoost : Nat
  rankNumbers : Nat
  textLength : Nat
deriving DecidableEq

/-- Embedding of `scorePdfTextForChartPicker` (useAppState.ts 796-845),
scaled by `scoreScale`: a zero record for empty normalized text;
otherwise the weighted keyword sum, plus `0.45` per likely rank number
(capped at 300), plus `min(40, textLength/1000)`, with the gated
disco/dance boost added into the effective score. -/
def scorePdfTextForChartPicker (rawText : String) : ScoredText :=
  let text := normalizePdfTextForScoring rawText
  let textLength := text.length
  if textLength = 0 then
    { baseScore := 0, effectiveScore := 0, discoDanceBoost := 0,
      rankNumbers := 0, textLength := 0 }
  else
    let keywordScore := basePatterns.foldl
      (fun acc p => acc + countRegexMatches (reMatch p.1) text p.2.2 * p.2.1) 0
    let rankNumbers := countLikelyRankNumbers text 300
    let baseScore := keywordScore + min 300 rankNumbers * 900 +
      min (40 * scoreScale) (2 * textLength)
    let discoDanceBoost := scoreDiscoDancePreferenceBoost text baseScore rankNumbers
    let effectiveScore := baseScore + discoDanceBoost
    { baseScore := baseScore, effectiveScore := effectiveScore,
      discoDanceBoost := discoDanceBoost, rankNumbers := rankNumbers,
      textLength := textLength }

/-- Embedding of `looksLikeChartPage` (useAppState.ts 847-849). -/
def looksLikeChartPage (s : ScoredText) : Bool :=
  160 * scoreScale ≤ s.baseScore ∨ 30 ≤ s.rankNumbers ∨
    (110 * scoreScale ≤ s.baseScore ∧ 18 ≤ s.rankNumbers)

/-- Helper: the preference boost is zero whenever the gate condition of
`scoreDiscoDancePreferenceBoost` holds. -/
theorem boost_gate_zero (text : List Char) (baseScore rankNumbers : Nat)
    (h1 : baseScore < 140 * scoreScale) (h2 : rankNumbers < 18) :
    scoreDiscoDancePreferenceBoost text baseScore rankNumbers = 0 := by
  unfold scoreDiscoDancePreferenceBoost
  rw [if_pos ⟨h1, h2⟩]

/-- C7: for every input page text, the disco/dance preference boost is
zero whenever both the base score and the likely-rank-number count are
below the chart-like gate thresholds (base score below 140, scaled, and
rank count below 18), and the returned effective score always equals the
base score plus the disco/dance boost. -/
theorem scorePdfText_boost_gate (rawText : String) :
    ((scorePdfTextForChartPicker rawText).baseScore < 140 * scoreScale →
      (scorePdfTextForChartPicker rawText).rankNumbers < 18 →
      (scorePdfTextForChartPicker rawText).discoDanceBoost = 0) ∧
    (scorePdfTextForChartPicker rawText).effectiveScore =
      (scorePdfTextForChartPicker rawText).baseScore +
        (scorePdfTextForChartPicker rawText).discoDanceBoost := by
  by_cases h : (normalizePdfTextForScoring rawText).length = 0
  · have h2 : normalizePdfTextForScoring rawText = [] := List.length_eq_zero.mp h
    constructor
    · intro _ _
      simp [scorePdfTextForChartPicker, h2]
    · simp [scorePdfTextForChartPicker, h2]
  · constructor
    · intro h1 h2
      revert h1 h2
      simp only [scorePdfTextForChartPicker, if_neg h]
      intro h1 h2
      exact boost_gate_zero _ _ _ h1 h2
    · simp only [scorePdfTextForChartPicker, if_neg h]

/-- Free-form prose about dance and disco culture, with no table
structure (spec section 8's example input). -/
def proseExample : String :=
  "an essay about dance and disco culture in the late seventies, full of flowing prose"

theorem scorePdfText_boost_gate_witness :
    (scorePdfTextForChartPicker proseExample).baseScore < 140 * scoreScale ∧
    (scorePdfTextForChartPicker proseExample).rankNumbers < 18 ∧
    (scorePdfTextForChartPicker proseExample).discoDanceBoost = 0 :=
  ⟨by decide, by decide,
    (scorePdfText_boost_gate proseExample).1 (by decide) (by decide)⟩

/-! Candidate scanning (`scanPdfChartPageCandidatesForModel`,
useAppState.ts 958-1073).  Reading page text and rendering raster
previews are I/O: the model receives the per-page text layer as a list
(page `p`'s text is entry `p - 1`, `getPageText` failures being empty
strings) and the raster score of `scoreCanvasForChartLikeContent` as an
oracle function on page numbers; only the ordering of raster scores
matters to the control flow. -/

/-- One entry of the `textCandidates` array. -/
structure TextCandidate where
  pageNumber : Nat
  scored : ScoredText
deriving DecidableEq

/-- The `textCandidates.sort` comparator (useAppState.ts 1010-1017) as a
"comes not after" relation: preference boost presence first, then
effective score descending, then text length descending, then page
number ascending. -/
def candBefore (a b : TextCandidate) : Bool :=
  let aP : Bool := 0 < a.scored.discoDanceBoost
  let bP : Bool := 0 < b.scored.discoDanceBoost
  if aP ≠ bP then aP
  else if a.scored.effectiveScore ≠ b.scored.effectiveScore then
    b.scored.effectiveScore < a.scored.effectiveScore
  else if a.scored.textLength ≠ b.scored.textLength then
    b.scored.textLength < a.scored.textLength
  else a.pageNumber ≤ b.pageNumber

/-- The `rasterScores.sort` comparator (useAppState.ts 1054): raster
score descending, then page number ascending. -/
def rasterBefore (a b : Nat × Nat) : Bool :=
  if a.2 ≠ b.2 then b.2 < a.2 else a.1 ≤ b.1

/-- `pushCandidate` (useAppState.ts 1021-1025) on the state
(`seen`, `candidates`). -/
def pushCandidate (st : List Nat × List Nat) (p : Nat) : List Nat × List Nat :=
  if st.1.contains p then st else (st.1 ++ [p], st.2 ++ [p])

/-- A push loop guarded by `if (candidates.length >= candidateLimit) break`. -/
def pushUpTo (limit : Nat) (st : List Nat × List Nat) (ps : List Nat) :
    List Nat × List Nat :=
  ps.foldl (fun st p => if limit ≤ st.2.length then st else pushCandidate st p) st

/-- The text qualifying pass: score pages `1..scanPages` and keep the
chart-like ones with their scores. -/
def textCandidatesOf (pageTexts : List String) (scanPages : Nat) : List TextCandidate :=
  (List.range' 1 scanPages).filterMap (fun p =>
    let scored := scorePdfTextForChartPicker (pageTexts.getD (p - 1) "")
    if looksLikeChartPage scored then some { pageNumber := p, scored := scored }
    else none)

/-- The raster fallback list: the scanned pages not already seen, with
their oracle raster scores. -/
def rasterScoresOf (rasterScore : Nat → Nat) (scanPages : Nat) (seen : List Nat) :
    List (Nat × Nat) :=
  (List.range' 1 scanPages).filterMap (fun p =>
    if seen.contains p then none else some (p, rasterScore p))

/-- Embedding of `scanPdfChartPageCandidatesForModel`: `none` models the
`PDF has no pages` throw; otherwise the page count and the candidate
list are returned.  The `?? 300` / `?? 12` defaults are applied by the
caller; `Math.max(1, ...)` is applied here as in the source. -/
def scanPdfChartPageCandidatesForModel (pageTexts : List String)
    (rasterScore : Nat → Nat) (maxPagesToScan candidateLimit : Nat) :
    Option (Nat × List Nat) :=
  let maxPages := max 1 maxPagesToScan
  let limit := max 1 candidateLimit
  let pageCount := pageTexts.length
  if pageCount < 1 then none
  else
    let scanPages := min pageCount maxPages
    let sorted := List.insertionSort (fun a b => candBefore a b = true)
      (textCandidatesOf pageTexts scanPages)
    let primaryLimit := min limit 6
    let st1 := pushUpTo limit ([], []) ((sorted.take primaryLimit).map (fun c => c.pageNumber))
    let st2 :=
      if st1.2.length < limit then
        let rasterSorted := List.insertionSort (fun a b => rasterBefore a b = true)
          (rasterScoresOf rasterScore scanPages st1.1)
        pushUpTo limit st1 (rasterSorted.map (fun r => r.1))
      else st1
    some (pageCount, st2.2.take limit)

/-- The candidate-scan behaviour asserted by the specification, written
from the spec's words for comparison with the embedding: all pages that
qualified by text come first in comparator order, and raster-scored
pages are used only to fill the slots left when fewer than the requested
number of candidates qualified by text; the list is de-duplicated and
truncated to the candidate limit. -/
def scanClaimedResult (pageTexts : List String)
    (rasterScore : Nat → Nat) (maxPagesToScan candidateLimit : Nat) :
    Option (Nat × List Nat) :=
  let maxPages := max 1 maxPagesToScan
  let limit := max 1 candidateLimit
  let pageCount := pageTexts.length
  if pageCount < 1 then none
  else
    let scanPages := min pageCount maxPages
    let sorted := List.insertionSort (fun a b => candBefore a b = true)
      (textCandidatesOf pageTexts scanPages)
    let textPages := sorted.map (fun c => c.pageNumber)
    let fill :=
      if textPages.length < limit then
        (List.insertionSort (fun a b => rasterBefore a b = true)
          (rasterScoresOf rasterScore scanPages textPages)).map (fun r => r.1)
      else []
    some (pageCount, ((textPages ++ fill).dedup).take limit)

/-- The corrected characterization: the text phase contributes at most
`min(candidateLimit, 6)` qualified pages (in comparator order), and the
raster fallback fills the remaining slots whenever fewer than
`candidateLimit` candidates were chosen by the text phase. -/
def scanAmendedResult (pageTexts : List String)
    (rasterScore : Nat → Nat) (maxPagesToScan candidateLimit : Nat) :
    Option (Nat × List Nat) :=
  let maxPages := max 1 maxPagesToScan
  let limit := max 1 candidateLimit
  let pageCount := pageTexts.length
  if pageCount < 1 then none
  else
    let scanPages := min pageCount maxPages
    let sorted := List.insertionSort (fun a b => candBefore a b = true)
      (textCandidatesOf pageTexts scanPages)
    let textPart := (sorted.take (min limit 6)).map (fun c => c.pageNumber)
    let rasterPart :=
      if textPart.length < limit then
        ((List.insertionSort (fun a b => rasterBefore a b = true)
          (rasterScoresOf rasterScore scanPages textPart)).map (fun r => r.1)).take
          (limit - textPart.length)
      else []
    some (pageCount, textPart ++ rasterPart)

def scanExampleTexts : List String :=
  ["weeks on chart weeks on chart title title title title title title title",
   "weeks on chart weeks on chart title title title title title title",
   "weeks on chart weeks on chart title title title title title",
   "weeks on chart weeks on chart title title title title",
   "weeks on chart weeks on chart title title title",
   "weeks on chart weeks on chart title title",
   "weeks on chart weeks on chart title",
   "weeks on chart weeks on chart"]

def scanExampleRaster : Nat → Nat := fun p => p

theorem pushUpTo_spec :
    ∀ (ps : List Nat) (st : List Nat × List Nat) (limit : Nat),
      st.1 = st.2 → ps.Nodup → (∀ p ∈ ps, ¬ p ∈ st.1) →
      pushUpTo limit st ps =
        (st.1 ++ ps.take (limit - st.2.length),
         st.2 ++ ps.take (limit - st.2.length)) := by
  intro ps
  induction ps with
  | nil =>
    intro st limit _ _ _
    simp [pushUpTo]
  | cons p ps ih =>
    intro st limit hst hnd hdisj
    by_cases hl : limit ≤ st.2.length
    · have hz : limit - st.2.length = 0 := by omega
      rw [hz]
      simp only [List.take_zero, List.append_nil]
      have : pushUpTo limit st (p :: ps) = pushUpTo limit st ps := by
        unfold pushUpTo
        rw [List.foldl_cons, if_pos hl]
      rw [this, ih st limit hst hnd.of_cons (fun q hq => hdisj q (List.mem_cons_of_mem p hq))]
      rw [hz]
      simp
    · have hpush : pushCandidate st p = (st.1 ++ [p], st.2 ++ [p]) := by
        unfold pushCandidate
        rw [if_neg]
        intro hc
        exact hdisj p (List.mem_cons_self p ps) (List.elem_iff.mp hc)
      have hstep : pushUpTo limit st (p :: ps) =
          pushUpTo limit (st.1 ++ [p], st.2 ++ [p]) ps := by
        unfold pushUpTo
        rw [List.foldl_cons, if_neg hl, hpush]
      rw [hstep]
      have hdisj2 : ∀ q ∈ ps, ¬ q ∈ st.1 ++ [p] := by
        intro q hq hmem
        rcases List.mem_append.mp hmem with hmem | hmem
        · exact hdisj q (List.mem_cons_of_mem p hq) hmem
        · rcases List.mem_singleton.mp hmem with rfl
          exact (List.nodup_cons.mp hnd).1 hq
      have := ih (st.1 ++ [p], st.2 ++ [p]) limit (by simp [hst]) hnd.of_cons hdisj2
      rw [this]
      simp only [List.length_append, List.length_singleton]
      have hcnt : limit - st.2.length = (limit - (st.2.length + 1)) + 1 := by omega
      rw [hcnt, List.take_succ_cons]
      simp [List.append_assoc]

theorem filterMap_if_map_pageNumber (c : Nat → Bool) (f : Nat → ScoredText) :
    ∀ l : List Nat,
      ((l.filterMap (fun p =>
        if c p then some (⟨p, f p⟩ : TextCandidate) else none)).map
          (fun t => t.pageNumber)) = l.filter c := by
  intro l
  induction l with
  | nil => rfl
  | cons p l ih =>
    by_cases hc : c p
    · simp only [List.filterMap_cons, hc, if_pos, List.map_cons, List.filter_cons, ih]
    · simp only [List.filterMap_cons, hc, if_neg, List.filter_cons]
      simp only [hc, Bool.false_eq_true, if_false, cond_false]
      exact ih

theorem filterMap_if_map_fst (c : Nat → Bool) (f : Nat → Nat) :
    ∀ l : List Nat,
      ((l.filterMap (fun p => if c p then some (p, f p) else none)).map
        (fun r => r.1)) = l.filter c := by
  intro l
  induction l with
  | nil => rfl
  | cons p l ih =>
    by_cases hc : c p
    · simp only [List.filterMap_cons, hc, if_pos, List.map_cons, List.filter_cons, ih]
    · simp only [List.filterMap_cons, hc, if_neg, List.filter_cons]
      simp only [hc, Bool.false_eq_true, if_false, cond_false]
      exact ih

theorem filterMap_ifNot_map_fst (c : Nat → Bool) (f : Nat → Nat) :
    ∀ l : List Nat,
      ((l.filterMap (fun p => if c p then none else some (p, f p))).map
        (fun r => r.1)) = l.filter (fun p => ! c p) := by
  intro l
  induction l with
  | nil => rfl
  | cons p l ih =>
    by_cases hc : c p
    · simp only [List.filterMap_cons, hc, if_pos, List.filter_cons]
      simp only [hc, Bool.not_true, Bool.false_eq_true, if_false, cond_false]
      exact ih
    · simp only [List.filterMap_cons, hc, Bool.false_eq_true, if_false, List.map_cons,
        List.filter_cons]
      simp [hc, ih]

theorem textCandidatesOf_map_pageNumber (texts : List String) (sp : Nat) :
    (textCandidatesOf texts sp).map (fun t => t.pageNumber) =
      (List.range' 1 sp).filter
        (fun p => looksLikeChartPage (scorePdfTextForChartPicker (texts.getD (p - 1) ""))) :=
  filterMap_if_map_pageNumber
    (fun p => looksLikeChartPage (scorePdfTextForChartPicker (texts.getD (p - 1) "")))
    (fun p => scorePdfTextForChartPicker (texts.getD (p - 1) ""))
    (List.range' 1 sp)

theorem rasterScoresOf_map_fst (rs : Nat → Nat) (sp : Nat) (seen : List Nat) :
    (rasterScoresOf rs sp seen).map (fun r => r.1) =
      (List.range' 1 sp).filter (fun p => ! seen.contains p) :=
  filterMap_ifNot_map_fst (fun p => seen.contains p) rs (List.range' 1 sp)

theorem scanCore_eq (rs : Nat → Nat) (SP L : Nat) (T0 : List Nat)
    (hnd : T0.Nodup) (hlen : T0.length ≤ L) :
    (let st1 := pushUpTo L ([], []) T0
     let st2 :=
       if st1.2.length < L then
         pushUpTo L st1 ((List.insertionSort (fun a b => rasterBefore a b = true)
           (rasterScoresOf rs SP st1.1)).map (fun r => r.1))
       else st1
     st2.2.take L) =
    T0 ++ (if T0.length < L then
        ((List.insertionSort (fun a b => rasterBefore a b = true)
          (rasterScoresOf rs SP T0)).map (fun r => r.1)).take (L - T0.length)
      else []) := by
  have h1 : pushUpTo L ([], []) T0 = (T0, T0) := by
    have := pushUpTo_spec T0 ([], []) L rfl hnd (by intro p hp; simp)
    simpa [List.take_of_length_le hlen] using this
  dsimp only
  rw [h1]
  dsimp only
  by_cases hfill : T0.length < L
  · rw [if_pos hfill, if_pos hfill]
    have hRperm : ((List.insertionSort (fun a b => rasterBefore a b = true)
        (rasterScoresOf rs SP T0)).map (fun r => r.1)).Perm
          ((List.range' 1 SP).filter (fun p => ! T0.contains p)) := by
      rw [← rasterScoresOf_map_fst rs SP T0]
      exact (List.perm_insertionSort _ _).map _
    have hRnd : ((List.insertionSort (fun a b => rasterBefore a b = true)
        (rasterScoresOf rs SP T0)).map (fun r => r.1)).Nodup :=
      hRperm.nodup_iff.mpr ((List.nodup_range' 1 SP).filter _)
    have hRdisj : ∀ p ∈ ((List.insertionSort (fun a b => rasterBefore a b = true)
        (rasterScoresOf rs SP T0)).map (fun r => r.1)), ¬ p ∈ T0 := by
      intro p hp hmem
      have := (List.mem_filter.mp (hRperm.mem_iff.mp hp)).2
      rw [Bool.not_eq_true'] at this
      exact (by simpa [List.elem_iff] using this : ¬ p ∈ T0) hmem
    have h2 := pushUpTo_spec _ (T0, T0) L rfl hRnd hRdisj
    rw [h2]
    dsimp only
    have hfin : (T0 ++ (((List.insertionSort (fun a b => rasterBefore a b = true)
        (rasterScoresOf rs SP T0)).map (fun r => r.1)).take (L - T0.length))).length ≤ L := by
      rw [List.length_append, List.length_take]
      omega
    rw [List.take_of_length_le hfin]
  · rw [if_neg hfill, if_neg hfill]
    rw [List.take_of_length_le hlen, List.append_nil]

/-- C5 (amended): the candidate scan equals the corrected description:
at most `min(candidateLimit, 6)` text-qualified pages first, in
comparator order, with raster-scored pages (raster score descending,
page ascending) filling the remaining slots whenever the text phase
chose fewer than `candidateLimit` pages. -/
theorem scanPdfChartPageCandidates_amended_eq
    (pageTexts : List String) (rasterScore : Nat → Nat)
    (maxPagesToScan candidateLimit : Nat) :
    scanPdfChartPageCandidatesForModel pageTexts rasterScore maxPagesToScan candidateLimit =
      scanAmendedResult pageTexts rasterScore maxPagesToScan candidateLimit := by
  unfold scanPdfChartPageCandidatesForModel scanAmendedResult
  dsimp only
  by_cases h0 : pageTexts.length < 1
  · rw [if_pos h0, if_pos h0]
  · rw [if_neg h0, if_neg h0]
    have hp : ((List.insertionSort (fun a b => candBefore a b = true)
        (textCandidatesOf pageTexts
          (min pageTexts.length (max 1 maxPagesToScan)))).map
            (fun c => c.pageNumber)).Nodup := by
      have hperm := (List.perm_insertionSort (fun a b => candBefore a b = true)
        (textCandidatesOf pageTexts (min pageTexts.length (max 1 maxPagesToScan)))).map
          (fun c => c.pageNumber)
      refine hperm.nodup_iff.mpr ?_
      rw [textCandidatesOf_map_pageNumber]
      exact (List.nodup_range' 1 _).filter _
    have hnd : (((List.insertionSort (fun a b => candBefore a b = true)
        (textCandidatesOf pageTexts (min pageTexts.length (max 1 maxPagesToScan)))).take
          (min (max 1 candidateLimit) 6)).map (fun c => c.pageNumber)).Nodup := by
      rw [List.map_take]
      exact (List.take_sublist _ _).nodup hp
    have hlen : (((List.insertionSort (fun a b => candBefore a b = true)
        (textCandidatesOf pageTexts (min pageTexts.length (max 1 maxPagesToScan)))).take
          (min (max 1 candidateLimit) 6)).map (fun c => c.pageNumber)).length ≤
        max 1 candidateLimit := by
      rw [List.length_map, List.length_take]
      have : min (max 1 candidateLimit) 6 ≤ max 1 candidateLimit := min_le_left _ _
      omega
    exact congrArg (fun x => some (pageTexts.length, x))
      (scanCore_eq rasterScore (min pageTexts.length (max 1 maxPagesToScan))
        (max 1 candidateLimit) _ hnd hlen)

/-- C5 (counterexample): with eight pages all qualifying by text and a
candidate limit of eight, the scan returns only the top six text pages
followed by raster-ordered fill, not the eight text-qualified pages in
comparator order that the claim describes. -/
theorem scanPdfChartPageCandidates_counterexample :
    scanPdfChartPageCandidatesForModel scanExampleTexts scanExampleRaster 300 8 =
      some (8, [1, 2, 3, 4, 5, 6, 8, 7]) ∧
    scanClaimedResult scanExampleTexts scanExampleRaster 300 8 =
      some (8, [1, 2, 3, 4, 5, 6, 7, 8]) ∧
    scanPdfChartPageCandidatesForModel scanExampleTexts scanExampleRaster 300 8 ≠
      scanClaimedResult scanExampleTexts scanExampleRaster 300 8 := by
  exact ⟨by decide, by decide, by decide⟩

/-! Worker and job store (src/apps/server/src/worker.ts).  The SQLite
tables are modelled as lists of row records in table order; SQL
statements become list transformations; `better-sqlite3` transactions
are sequential in the single worker process, so `withTransaction` is the
identity bracket and atomicity shows up as single Lean functions
computing the combined effect.  Timestamps are ISO strings ordered
bytewise, as SQLite orders TEXT columns. -/

/-- Job status (types.ts plus the `awaiting_review` value the worker
stores). -/
inductive JobStatus
  | queued
  | processing
  | completed
  | error
  | cancelled
  | deleted
  | awaitingReview
deriving DecidableEq

/-- File location enum. -/
inductive FileLocation
  | new
  | completed
  | missing
deriving DecidableEq

/-- Run status (worker.ts `RunStatus`). -/
inductive RunStatus
  | completed
  | error
  | cancelled
deriving DecidableEq

/-- The columns of the `jobs` table touched by the modelled worker
operations (columns never read or written by them are omitted). -/
structure JobRow where
  id : String
  filename : String
  status : JobStatus
  progress_step : Option String
  error : Option String
  created_at : String
  started_at : Option String
  finished_at : Option String
  file_location : FileLocation
  pending_filename : Option String
deriving DecidableEq

/-- One row of the `runs` table. -/
structure RunRow where
  run_id : String
  job_id : String
  model : String
  extracted_at : String
  rows_inserted : Nat
  raw_result_json : String
  status : RunStatus
  error : Option String
deriving DecidableEq

/-- One row of the `chart_rows` table. -/
structure ChartRowRec where
  run_id : String
  job_id : String
  entry_date : String
  chart_title : String
  chart_section : String
  this_week_rank : Option Nat
  last_week_rank : Option Nat
  two_weeks_ago_rank : Option Nat
  weeks_on_chart : Option Nat
  title : String
  artist : String
  label : String
  source_file : String
  extracted_at : String
deriving DecidableEq

/-- The persisted store. -/
structure DbState where
  jobs : List JobRow
  runs : List RunRow
  chart_rows : List ChartRowRec
deriving DecidableEq

/-- Bytewise (codepoint) comparison of strings, the order SQLite's
BINARY collation gives `ORDER BY created_at`. -/
def charsLe : List Char → List Char → Bool
  | [], _ => true
  | _ :: _, [] => false
  | a :: as, b :: bs => if a < b then true else if b < a then false else charsLe as bs

/-- String comparison used for `ORDER BY created_at ASC`. -/
def strLe (a b : String) : Bool := charsLe a.data b.data

/-- The row update of the claim statement (worker.ts 127-137): flip a
still-queued row to `processing` with a fresh `started_at`. -/
def flipToProcessing (now : String) (j : JobRow) : JobRow :=
  { j with
    status := JobStatus.processing
    progress_step := some "starting"
    error := none
    started_at := some now
    finished_at := none }

/-- `UPDATE jobs SET ... WHERE id = ? AND status = 'queued'` for one id. -/
def claimUpdate (now : String) (jobs : List JobRow) (i : String) : List JobRow :=
  jobs.map (fun j => if j.id = i ∧ j.status = JobStatus.queued then flipToProcessing now j else j)

/-- The queued rows in `ORDER BY created_at ASC` order. -/
def sortedQueuedJobs (jobs : List JobRow) : List JobRow :=
  List.insertionSort (fun a b => strLe a.created_at b.created_at = true)
    (jobs.filter (fun j => j.status = JobStatus.queued))

/-- The id selection of `claimQueuedJobs`:
`SELECT id FROM jobs WHERE status = 'queued' ORDER BY created_at ASC LIMIT ?`. -/
def selectQueuedIds (jobs : List JobRow) (limit : Nat) : List String :=
  ((sortedQueuedJobs jobs).take limit).map (fun j => j.id)

/-- Embedding of `Worker.claimQueuedJobs` (worker.ts 112-142): inside one
transaction, select the queued ids in creation order, flip each to
`processing`, and return the rows with the selected ids. -/
def claimQueuedJobs (jobs : List JobRow) (limit : Nat) (now : String) :
    List JobRow × List JobRow :=
  let ids := selectQueuedIds jobs limit
  if ids.isEmpty then ([], jobs)
  else
    let jobs2 := ids.foldl (claimUpdate now) jobs
    (jobs2.filter (fun j => ids.contains j.id), jobs2)

/-- `SELECT COUNT(*) FROM jobs WHERE status = 'processing'`. -/
def countProcessing (jobs : List JobRow) : Nat :=
  (jobs.filter (fun j => j.status = JobStatus.processing)).length

/-- Embedding of the claim portion of `Worker.tick` (worker.ts 92-110):
no claim when paused; otherwise `activeCount` is the larger of the
persisted processing count and the in-memory controller count, and up to
`max(0, concurrency - activeCount)` jobs are claimed. -/
def tickClaim (paused : Bool) (concurrency : Nat) (controllersCount : Nat)
    (jobs : List JobRow) (now : String) : List JobRow × List JobRow :=
  if paused then ([], jobs)
  else
    let activeCount := max (countProcessing jobs) controllersCount
    let available := concurrency - activeCount
    if available = 0 then ([], jobs)
    else claimQueuedJobs jobs available now

theorem charsLe_total : ∀ a b : List Char, charsLe a b = true ∨ charsLe b a = true := by
  intro a
  induction a with
  | nil => intro b; exact Or.inl rfl
  | cons x xs ih =>
    intro b
    cases b with
    | nil => exact Or.inr rfl
    | cons y ys =>
      rcases lt_trichotomy x y with h | h | h
      · exact Or.inl (by simp [charsLe, h])
      · subst h
        rcases ih ys with h2 | h2
        · exact Or.inl (by simp [charsLe, lt_irrefl, h2])
        · exact Or.inr (by simp [charsLe, lt_irrefl, h2])
      · exact Or.inr (by simp [charsLe, h])

theorem charsLe_trans :
    ∀ a b c : List Char, charsLe a b = true → charsLe b c = true → charsLe a c = true := by
  intro a
  induction a with
  | nil => intro b c _ _; rfl
  | cons x xs ih =>
    intro b c h1 h2
    cases b with
    | nil => simp [charsLe] at h1
    | cons y ys =>
      cases c with
      | nil => simp [charsLe] at h2
      | cons z zs =>
        rcases lt_trichotomy x y with hxy | hxy | hxy
        · rcases lt_trichotomy y z with hyz | hyz | hyz
          · simp [charsLe, lt_trans hxy hyz]
          · subst hyz; simp [charsLe, hxy]
          · simp [charsLe, hyz, asymm hyz] at h2
        · subst hxy
          rcases lt_trichotomy x z with hyz | hyz | hyz
          · simp [charsLe, hyz]
          · subst hyz
            simp only [charsLe, lt_irrefl, if_false] at h1 h2 ⊢
            exact ih ys zs h1 h2
          · simp [charsLe, hyz, asymm hyz] at h2
        · simp [charsLe, hxy, asymm hxy] at h1

theorem strLe_total (a b : String) : strLe a b = true ∨ strLe b a = true :=
  charsLe_total a.data b.data

theorem strLe_trans {a b c : String} (h1 : strLe a b = true) (h2 : strLe b c = true) :
    strLe a c = true :=
  charsLe_trans a.data b.data c.data h1 h2

theorem eq_of_mem_of_map_nodup {α β : Type} (f : α → β) :
    ∀ (l : List α), (l.map f).Nodup →
      ∀ a ∈ l, ∀ b ∈ l, f a = f b → a = b := by
  intro l
  induction l with
  | nil => intro _ a ha; cases ha
  | cons x t ih =>
    intro hnd a ha b hb hf
    simp only [List.map_cons, List.nodup_cons] at hnd
    rcases List.mem_cons.mp ha with rfl | hal
    · rcases List.mem_cons.mp hb with rfl | hbl
      · rfl
      · exact absurd (List.mem_map.mpr ⟨b, hbl, hf.symm⟩) hnd.1
    · rcases List.mem_cons.mp hb with rfl | hbl
      · exact absurd (List.mem_map.mpr ⟨a, hal, hf⟩) hnd.1
      · exact ih hnd.2 a hal b hbl hf

/-- The accumulated effect of the per-id claim updates on one row. -/
def applyClaims (now : String) (ids : List String) (j : JobRow) : JobRow :=
  ids.foldl
    (fun j i => if j.id = i ∧ j.status = JobStatus.queued then flipToProcessing now j else j) j

theorem foldl_claimUpdate (now : String) :
    ∀ (ids : List String) (jobs : List JobRow),
      ids.foldl (claimUpdate now) jobs = jobs.map (applyClaims now ids) := by
  intro ids
  induction ids with
  | nil =>
    intro jobs
    simp only [List.foldl_nil]
    rw [show applyClaims now [] = id from rfl, List.map_id]
  | cons i ids ih =>
    intro jobs
    rw [List.foldl_cons, ih, claimUpdate, List.map_map]
    rfl

theorem applyClaims_not_queued (now : String) :
    ∀ (ids : List String) (j : JobRow), j.status ≠ JobStatus.queued →
      applyClaims now ids j = j := by
  intro ids
  induction ids with
  | nil => intro j _; rfl
  | cons i ids ih =>
    intro j h
    unfold applyClaims
    rw [List.foldl_cons, if_neg (fun hc => h hc.2)]
    exact ih j h

theorem applyClaims_eq (now : String) :
    ∀ (ids : List String) (j : JobRow),
      applyClaims now ids j =
        if j.id ∈ ids ∧ j.status = JobStatus.queued then flipToProcessing now j else j := by
  intro ids
  induction ids with
  | nil =>
    intro j
    simp [applyClaims]
  | cons i ids ih =>
    intro j
    by_cases hc : j.id = i ∧ j.status = JobStatus.queued
    · have hstep : applyClaims now (i :: ids) j = applyClaims now ids (flipToProcessing now j) := by
        unfold applyClaims
        rw [List.foldl_cons, if_pos hc]
      rw [hstep, applyClaims_not_queued now ids _ (by simp [flipToProcessing]),
        if_pos ⟨by rw [hc.1]; exact List.mem_cons_self i ids, hc.2⟩]
    · have hstep : applyClaims now (i :: ids) j = applyClaims now ids j := by
        unfold applyClaims
        rw [List.foldl_cons, if_neg hc]
      rw [hstep, ih]
      by_cases hq : j.status = JobStatus.queued
      · have hne : j.id ≠ i := fun h => hc ⟨h, hq⟩
        by_cases hmem : j.id ∈ ids
        · rw [if_pos ⟨hmem, hq⟩, if_pos ⟨List.mem_cons_of_mem i hmem, hq⟩]
        · rw [if_neg (fun h => hmem h.1), if_neg (fun h => by
            rcases List.mem_cons.mp h.1 with h1 | h1
            · exact hne h1
            · exact hmem h1)]
      · rw [if_neg (fun h => hq h.2), if_neg (fun h => hq h.2)]

theorem sortedQueuedJobs_sorted (jobs : List JobRow) :
    List.Sorted (fun a b : JobRow => strLe a.created_at b.created_at = true)
      (sortedQueuedJobs jobs) := by
  haveI : IsTotal JobRow (fun a b => strLe a.created_at b.created_at = true) :=
    ⟨fun a b => strLe_total _ _⟩
  haveI : IsTrans JobRow (fun a b => strLe a.created_at b.created_at = true) :=
    ⟨fun _ _ _ => strLe_trans⟩
  exact List.sorted_insertionSort _ _

theorem mem_sortedQueuedJobs {jobs : List JobRow} {j : JobRow} :
    j ∈ sortedQueuedJobs jobs ↔ j ∈ jobs ∧ j.status = JobStatus.queued := by
  unfold sortedQueuedJobs
  rw [(List.perm_insertionSort _ _).mem_iff, List.mem_filter]
  simp

theorem selectQueuedIds_nodup (jobs : List JobRow) (limit : Nat)
    (hnd : (jobs.map (fun j => j.id)).Nodup) :
    (selectQueuedIds jobs limit).Nodup := by
  unfold selectQueuedIds sortedQueuedJobs
  rw [List.map_take]
  refine (List.take_sublist _ _).nodup ?_
  refine ((List.perm_insertionSort _ _).map (fun (j : JobRow) => j.id)).nodup_iff.mpr ?_
  exact ((List.filter_sublist _).map (fun (j : JobRow) => j.id)).nodup hnd

theorem mem_selectQueuedIds {jobs : List JobRow} {limit : Nat} {i : String}
    (h : i ∈ selectQueuedIds jobs limit) :
    ∃ j0, j0 ∈ jobs ∧ j0.id = i ∧ j0.status = JobStatus.queued ∧
      j0 ∈ (sortedQueuedJobs jobs).take limit := by
  rcases List.mem_map.mp h with ⟨jt, hjt, rfl⟩
  have hmem := mem_sortedQueuedJobs.mp (List.take_subset limit _ hjt)
  exact ⟨jt, hmem.1, rfl, hmem.2, hjt⟩

theorem claimQueuedJobs_spec (jobs : List JobRow) (limit : Nat) (now : String)
    (hnd : (jobs.map (fun j => j.id)).Nodup) :
    (claimQueuedJobs jobs limit now).1.length ≤ limit ∧
    (∀ j ∈ (claimQueuedJobs jobs limit now).1,
      j.status = JobStatus.processing ∧ j.started_at = some now ∧
      ∃ j0, j0 ∈ jobs ∧ j0.id = j.id ∧ j0.status = JobStatus.queued ∧
        j0.created_at = j.created_at) ∧
    (∀ j ∈ (claimQueuedJobs jobs limit now).2,
      j ∈ jobs ∨ (j.status = JobStatus.processing ∧ j.started_at = some now ∧
        j ∈ (claimQueuedJobs jobs limit now).1)) ∧
    (∀ jc ∈ (claimQueuedJobs jobs limit now).1,
      ∀ j ∈ (claimQueuedJobs jobs limit now).2, j.status = JobStatus.queued →
        strLe jc.created_at j.created_at = true) ∧
    (∀ j ∈ (claimQueuedJobs jobs limit now).2,
      j.id ∈ (claimQueuedJobs jobs limit now).1.map (fun c => c.id) →
        j.status = JobStatus.processing) ∧
    (claimQueuedJobs jobs limit now).2.map (fun j => j.id) = jobs.map (fun j => j.id) := by
  unfold claimQueuedJobs
  by_cases hemp : (selectQueuedIds jobs limit).isEmpty
  · rw [if_pos hemp]
    refine ⟨by simp, ?_, ?_, ?_, ?_, rfl⟩
    · intro j hj; cases hj
    · intro j hj; exact Or.inl hj
    · intro jc hjc; cases hjc
    · intro j _ hj; cases hj
  · rw [if_neg hemp]
    dsimp only
    rw [foldl_claimUpdate now (selectQueuedIds jobs limit) jobs]
    have hid_pres : ∀ j : JobRow, (applyClaims now (selectQueuedIds jobs limit) j).id = j.id := by
      intro j
      rw [applyClaims_eq]
      split
      · rfl
      · rfl
    have hca_pres : ∀ j : JobRow,
        (applyClaims now (selectQueuedIds jobs limit) j).created_at = j.created_at := by
      intro j
      rw [applyClaims_eq]
      split
      · rfl
      · rfl
    have hmapid : (jobs.map (applyClaims now (selectQueuedIds jobs limit))).map
        (fun j => j.id) = jobs.map (fun j => j.id) := by
      rw [List.map_map]
      exact List.map_congr_left (fun j _ => hid_pres j)
    have hnd2 : ((jobs.map (applyClaims now (selectQueuedIds jobs limit))).map
        (fun j => j.id)).Nodup := by rw [hmapid]; exact hnd
    have hinj : ∀ a ∈ jobs, ∀ b ∈ jobs, a.id = b.id → a = b :=
      eq_of_mem_of_map_nodup _ jobs hnd
    -- every member of the claimed row list is a flipped formerly-queued row
    have hclaimed : ∀ j ∈ (jobs.map (applyClaims now (selectQueuedIds jobs limit))).filter
        (fun j => (selectQueuedIds jobs limit).contains j.id),
        ∃ j0, j0 ∈ jobs ∧ j0.status = JobStatus.queued ∧
          j0 ∈ (sortedQueuedJobs jobs).take limit ∧
          j = flipToProcessing now j0 := by
      intro j hj
      rcases List.mem_filter.mp hj with ⟨hj2, hcont⟩
      rcases List.mem_map.mp hj2 with ⟨j0, hj0, rfl⟩
      rw [applyClaims_eq] at hcont ⊢
      by_cases hc : j0.id ∈ selectQueuedIds jobs limit ∧ j0.status = JobStatus.queued
      · rw [if_pos hc] at hcont ⊢
        rcases mem_selectQueuedIds hc.1 with ⟨j1, hj1, hid1, _, htake⟩
        have : j1 = j0 := hinj j1 hj1 j0 hj0 hid1
        subst this
        exact ⟨j1, hj1, hc.2, htake, rfl⟩
      · rw [if_neg hc] at hcont
        have hmem : j0.id ∈ selectQueuedIds jobs limit := List.elem_iff.mp hcont
        rcases mem_selectQueuedIds hmem with ⟨j1, hj1, hid1, hq1, _⟩
        have : j1 = j0 := hinj j1 hj1 j0 hj0 hid1
        subst this
        exact absurd ⟨hmem, hq1⟩ hc
    refine ⟨?_, ?_, ?_, ?_, ?_, hmapid⟩
    · -- at most `limit` rows are claimed
      have hsub : ((jobs.map (applyClaims now (selectQueuedIds jobs limit))).filter
          (fun j => (selectQueuedIds jobs limit).contains j.id)).map (fun j => j.id) ⊆
            selectQueuedIds jobs limit := by
        intro i hi
        rcases List.mem_map.mp hi with ⟨j, hj, rfl⟩
        exact List.elem_iff.mp (List.mem_filter.mp hj).2
      have hndf : (((jobs.map (applyClaims now (selectQueuedIds jobs limit))).filter
          (fun j => (selectQueuedIds jobs limit).contains j.id)).map (fun j => j.id)).Nodup :=
        ((List.filter_sublist _).map (fun (j : JobRow) => j.id)).nodup hnd2
      have hle := (hndf.subperm hsub).length_le
      rw [List.length_map] at hle
      refine le_trans hle ?_
      unfold selectQueuedIds
      rw [List.length_map, List.length_take]
      exact min_le_left _ _
    · -- claimed rows are processing with a fresh start, from queued rows
      intro j hj
      rcases hclaimed j hj with ⟨j0, hj0, hq0, _, rfl⟩
      exact ⟨rfl, rfl, j0, hj0, rfl, hq0, rfl⟩
    · -- rows are untouched or flipped-and-returned
      intro j hj
      rcases List.mem_map.mp hj with ⟨j0, hj0, rfl⟩
      rw [applyClaims_eq]
      by_cases hc : j0.id ∈ selectQueuedIds jobs limit ∧ j0.status = JobStatus.queued
      · rw [if_pos hc]
        refine Or.inr ⟨rfl, rfl, ?_⟩
        refine List.mem_filter.mpr ⟨?_, ?_⟩
        · refine List.mem_map.mpr ⟨j0, hj0, ?_⟩
          rw [applyClaims_eq, if_pos hc]
        · have : (flipToProcessing now j0).id = j0.id := rfl
          rw [this]
          exact List.elem_iff.mpr hc.1
      · rw [if_neg hc]
        exact Or.inl hj0
    · -- FIFO: claimed rows precede every still-queued row
      intro jc hjc j hj hq
      rcases hclaimed jc hjc with ⟨j0, _, _, htake, rfl⟩
      rcases List.mem_map.mp hj with ⟨j1, hj1, rfl⟩
      by_cases hc : j1.id ∈ selectQueuedIds jobs limit ∧ j1.status = JobStatus.queued
      · rw [applyClaims_eq, if_pos hc] at hq
        cases hq
      · rw [applyClaims_eq, if_neg hc] at hq ⊢
        have hmem1 : j1 ∈ sortedQueuedJobs jobs := mem_sortedQueuedJobs.mpr ⟨hj1, hq⟩
        have hnotin : j1 ∉ (sortedQueuedJobs jobs).take limit := by
          intro htk
          exact hc ⟨List.mem_map.mpr ⟨j1, htk, rfl⟩, hq⟩
        have hdrop : j1 ∈ (sortedQueuedJobs jobs).drop limit := by
          rcases List.mem_append.mp
            ((List.take_append_drop limit (sortedQueuedJobs jobs)) ▸ hmem1) with h | h
          · exact absurd h hnotin
          · exact h
        show strLe j0.created_at j1.created_at = true
        exact (sortedQueuedJobs_sorted jobs).rel_of_mem_take_of_mem_drop htake hdrop
    · -- a row whose id was claimed is processing afterwards
      intro j hj hid
      rcases List.mem_map.mp hid with ⟨jc, hjc, hidc⟩
      have hjc2 : jc ∈ jobs.map (applyClaims now (selectQueuedIds jobs limit)) :=
        List.mem_of_mem_filter hjc
      have : jc = j := eq_of_mem_of_map_nodup (fun j => j.id) _ hnd2 jc hjc2 j hj hidc
      subst this
      rcases hclaimed jc hjc with ⟨j0, _, _, _, rfl⟩
      rfl

/-- C1: on a tick (not paused), at most
`concurrency - max(processingCount, controllerCount)` jobs are claimed;
every claimed row is a formerly-queued row flipped to `processing` with
a fresh `started_at`; rows not claimed are untouched; claiming follows
creation order (every claimed row's `created_at` is at most every
still-queued row's); a claimed id is `processing` afterwards, so a
second claim pass never returns it again. -/
theorem tickClaim_spec (paused : Bool) (concurrency controllersCount : Nat)
    (jobs : List JobRow) (now : String)
    (paused2 : Bool) (concurrency2 controllersCount2 : Nat) (now2 : String)
    (hnd : (jobs.map (fun j => j.id)).Nodup) :
    (tickClaim paused concurrency controllersCount jobs now).1.length ≤
      concurrency - max (countProcessing jobs) controllersCount ∧
    (∀ j ∈ (tickClaim paused concurrency controllersCount jobs now).1,
      j.status = JobStatus.processing ∧ j.started_at = some now ∧
      ∃ j0, j0 ∈ jobs ∧ j0.id = j.id ∧ j0.status = JobStatus.queued ∧
        j0.created_at = j.created_at) ∧
    (∀ j ∈ (tickClaim paused concurrency controllersCount jobs now).2,
      j ∈ jobs ∨ (j.status = JobStatus.processing ∧ j.started_at = some now ∧
        j ∈ (tickClaim paused concurrency controllersCount jobs now).1)) ∧
    (∀ jc ∈ (tickClaim paused concurrency controllersCount jobs now).1,
      ∀ j ∈ (tickClaim paused concurrency controllersCount jobs now).2,
        j.status = JobStatus.queued → strLe jc.created_at j.created_at = true) ∧
    (∀ j ∈ (tickClaim paused concurrency controllersCount jobs now).2,
      j.id ∈ (tickClaim paused concurrency controllersCount jobs now).1.map (fun c => c.id) →
        j.status = JobStatus.processing) ∧
    (∀ jc ∈ (tickClaim paused concurrency controllersCount jobs now).1,
      ∀ jc2 ∈ (tickClaim paused2 concurrency2 controllersCount2
          (tickClaim paused concurrency controllersCount jobs now).2 now2).1,
        jc.id ≠ jc2.id) := by
  have hmain : (tickClaim paused concurrency controllersCount jobs now) = ([], jobs) ∨
      ((tickClaim paused concurrency controllersCount jobs now) =
        claimQueuedJobs jobs (concurrency - max (countProcessing jobs) controllersCount) now ∧
       concurrency - max (countProcessing jobs) controllersCount ≠ 0) := by
    unfold tickClaim
    by_cases hp : paused = true
    · rw [if_pos hp]; exact Or.inl rfl
    · rw [if_neg hp]
      dsimp only
      by_cases hav : concurrency - max (countProcessing jobs) controllersCount = 0
      · rw [if_pos hav]; exact Or.inl rfl
      · rw [if_neg hav]; exact Or.inr ⟨rfl, hav⟩
  rcases hmain with heq | ⟨heq, _⟩
  · rw [heq]
    refine ⟨by simp, ?_, ?_, ?_, ?_, ?_⟩
    · intro j hj; cases hj
    · intro j hj; exact Or.inl hj
    · intro jc hjc; cases hjc
    · intro j _ hid; cases hid
    · intro jc hjc; cases hjc
  · rw [heq]
    have hspec := claimQueuedJobs_spec jobs
      (concurrency - max (countProcessing jobs) controllersCount) now hnd
    have hnd2 : ((claimQueuedJobs jobs
        (concurrency - max (countProcessing jobs) controllersCount) now).2.map
          (fun j => j.id)).Nodup := by
      rw [hspec.2.2.2.2.2]; exact hnd
    refine ⟨hspec.1, hspec.2.1, hspec.2.2.1, hspec.2.2.2.1, hspec.2.2.2.2.1, ?_⟩
    intro jc hjc jc2 hjc2 hideq
    have hb2 : ∃ j0, j0 ∈ (claimQueuedJobs jobs
        (concurrency - max (countProcessing jobs) controllersCount) now).2 ∧
        j0.id = jc2.id ∧ j0.status = JobStatus.queued := by
      unfold tickClaim at hjc2
      by_cases hp2 : paused2 = true
      · rw [if_pos hp2] at hjc2; cases hjc2
      · rw [if_neg hp2] at hjc2
        dsimp only at hjc2
        by_cases hav2 : concurrency2 - max (countProcessing (claimQueuedJobs jobs
            (concurrency - max (countProcessing jobs) controllersCount) now).2)
              controllersCount2 = 0
        · rw [if_pos hav2] at hjc2; cases hjc2
        · rw [if_neg hav2] at hjc2
          have := (claimQueuedJobs_spec _ _ now2 hnd2).2.1 jc2 hjc2
          rcases this.2.2 with ⟨j0, hj0, hid0, hq0, _⟩
          exact ⟨j0, hj0, hid0, hq0⟩
    rcases hb2 with ⟨j0, hj0, hid0, hq0⟩
    have : j0.status = JobStatus.processing := by
      refine hspec.2.2.2.2.1 j0 hj0 ?_
      rw [hid0, ← hideq]
      exact List.mem_map.mpr ⟨jc, hjc, rfl⟩
    rw [this] at hq0
    cases hq0

def exampleJobRow (i created : String) (st : JobStatus) : JobRow :=
  { id := i
    filename := i ++ ".png"
    status := st
    progress_step := none
    error := none
    created_at := created
    started_at := none
    finished_at := none
    file_location := FileLocation.new
    pending_filename := none }

def exampleJobs : List JobRow :=
  [exampleJobRow "a" "2026-01-02" JobStatus.queued,
   exampleJobRow "b" "2026-01-01" JobStatus.queued,
   exampleJobRow "c" "2026-01-03" JobStatus.processing]

theorem tickClaim_spec_witness :
    (exampleJobs.map (fun j => j.id)).Nodup ∧
    (tickClaim false 2 0 exampleJobs "2026-01-04").1.length ≤
      2 - max (countProcessing exampleJobs) 0 :=
  ⟨by decide,
    (tickClaim_spec false 2 0 exampleJobs "2026-01-04" false 2 0 "2026-01-05"
      (by decide)).1⟩

/-- The promoted (re-queued) version of a job row, as written by the
`UPDATE` of `queuePendingVersionIfNeeded` (worker.ts 277-290). -/
def promoteRow (pending : String) (loc : FileLocation) (j : JobRow) : JobRow :=
  { j with
    status := JobStatus.queued
    progress_step := none
    error := none
    started_at := none
    finished_at := none
    filename := pending
    file_location := loc
    pending_filename := none }

/-- Embedding of `Worker.queuePendingVersionIfNeeded` (worker.ts
265-292).  The filesystem is modelled by the filename lists of the `new`
and `completed` directories.  A missing row reads as a null pending
filename; a JS-falsy (empty) pending filename is also skipped. -/
def queuePendingVersionIfNeeded (fsNew fsCompleted : List String)
    (jobs : List JobRow) (jobId : String) : List JobRow :=
  match jobs.find? (fun j => j.id = jobId) with
  | none => jobs
  | some row =>
    match row.pending_filename with
    | none => jobs
    | some pending =>
      if pending.isEmpty then jobs
      else if row.status = JobStatus.processing ∨ row.status = JobStatus.deleted then jobs
      else
        let fileLocation :=
          if fsNew.contains pending then FileLocation.new
          else if fsCompleted.contains pending then FileLocation.completed
          else FileLocation.missing
        jobs.map (fun j =>
          if j.id = jobId ∧ ¬ j.status = JobStatus.processing then
            promoteRow pending fileLocation j
          else j)

/-- A JavaScript error value as seen by the worker's catch block: its
constructor name, its message, and whether it is a `JobCancelledError`. -/
structure JsError where
  name : String
  message : String
  isJobCancelled : Bool
deriving DecidableEq

/-- Embedding of `isAbortError` (worker.ts 39-41); every modelled thrown
value is an `Error` instance. -/
def isAbortError (e : JsError) : Bool := e.name = "AbortError"

/-- JS `message || 'Cancelled'`. -/
def messageOrCancelled (message : String) : String :=
  if message.isEmpty then "Cancelled" else message

/-- The row written by `Worker.setError`'s UPDATE. -/
def errorJobRow (now message : String) (j : JobRow) : JobRow :=
  { j with
    status := JobStatus.error
    progress_step := some "error"
    error := some message
    finished_at := some now }

/-- `Worker.setError` (worker.ts 156-169): flip the job to `error` only
while it is still `processing`. -/
def setErrorOp (now message : String) (jobId : String) (st : DbState) : DbState :=
  { st with
    jobs := st.jobs.map (fun j =>
      if j.id = jobId ∧ j.status = JobStatus.processing then errorJobRow now message j
      else j) }

/-- The row written by `Worker.setCancelled`'s UPDATE. -/
def cancelJobRow (now message : String) (j : JobRow) : JobRow :=
  { j with
    status := JobStatus.cancelled
    progress_step := none
    error := some message
    finished_at := some now }

/-- `Worker.setCancelled` (worker.ts 171-184): flip the job to
`cancelled` unconditionally. -/
def setCancelledOp (now message : String) (jobId : String) (st : DbState) : DbState :=
  { st with
    jobs := st.jobs.map (fun j =>
      if j.id = jobId then cancelJobRow now message j
      else j) }

/-- The run-row update of `Worker.updateRunStatus`. -/
def setRunStatusRow (status : RunStatus) (error : Option String) (r : RunRow) : RunRow :=
  { r with status := status, error := error }

/-- `Worker.recordRun` (worker.ts 186-211): insert a run row. -/
def recordRunOp (run : RunRow) (st : DbState) : DbState :=
  { st with runs := st.runs ++ [run] }

/-- `Worker.updateRunStatus` (worker.ts 213-215). -/
def updateRunStatusOp (runId : String) (status : RunStatus) (error : Option String)
    (st : DbState) : DbState :=
  { st with
    runs := st.runs.map (fun r =>
      if r.run_id = runId then setRunStatusRow status error r else r) }

/-- The cancellation classification of the catch block (worker.ts 809):
`error instanceof JobCancelledError || controller.signal.aborted ||
isAbortError(error)`. -/
def isCancellationOutcome (e : JsError) (aborted : Bool) : Bool :=
  e.isJobCancelled || aborted || isAbortError e

/-- Embedding of the catch block of `Worker.processJob` (worker.ts
808-843): classify the exception, write the classification to the job,
and update the provisional run or create one if none was persisted. -/
def processJobCatch (now runId jobId model rawResultJson : String)
    (runRecorded : Bool) (e : JsError) (aborted : Bool) (st : DbState) : DbState :=
  if isCancellationOutcome e aborted then
    let message := messageOrCancelled e.message
    let st2 := setCancelledOp now message jobId st
    if runRecorded then updateRunStatusOp runId RunStatus.cancelled (some message) st2
    else
      recordRunOp
        { run_id := runId
          job_id := jobId
          model := model
          extracted_at := now
          rows_inserted := 0
          raw_result_json := rawResultJson
          status := RunStatus.cancelled
          error := some message } st2
  else
    let message := e.message
    let st2 := setErrorOp now message jobId st
    if runRecorded then updateRunStatusOp runId RunStatus.error (some message) st2
    else
      recordRunOp
        { run_id := runId
          job_id := jobId
          model := model
          extracted_at := now
          rows_inserted := 0
          raw_result_json := rawResultJson
          status := RunStatus.error
          error := some message } st2

/-- Events of the tail of `processJob`, recording its control flow. -/
inductive WorkerEvent
  | caught (cancelled : Bool)
  | controllerReleased
  | pendingPromotion
  | tick
deriving DecidableEq

/-- Embedding of the catch/finally boundary of `Worker.processJob`
(worker.ts 808-848): the pipeline's outcome is either normal completion
(`none`) or a thrown error with the abort-signal state; in both cases
the `finally` block releases the cancellation controller, promotes a
pending replacement version, and re-polls with `tick` — no exception
escapes, so the function is total on every outcome. -/
def processJobBoundary (now runId jobId model rawResultJson : String)
    (runRecorded : Bool) (outcome : Option (JsError × Bool))
    (fsNew fsCompleted : List String) (st : DbState) (controllers : List String) :
    DbState × List String × List WorkerEvent :=
  match outcome with
  | none =>
    let controllers2 := controllers.erase jobId
    let st2 := { st with jobs := queuePendingVersionIfNeeded fsNew fsCompleted st.jobs jobId }
    (st2, controllers2,
      [WorkerEvent.controllerReleased, WorkerEvent.pendingPromotion, WorkerEvent.tick])
  | some (e, aborted) =>
    let st1 := processJobCatch now runId jobId model rawResultJson runRecorded e aborted st
    let controllers2 := controllers.erase jobId
    let st2 := { st1 with jobs := queuePendingVersionIfNeeded fsNew fsCompleted st1.jobs jobId }
    (st2, controllers2,
      [WorkerEvent.caught (isCancellationOutcome e aborted),
       WorkerEvent.controllerReleased, WorkerEvent.pendingPromotion, WorkerEvent.tick])

/-- C10: the pending-version promotion running after every job attempt
re-queues the pending filename only when the job's status is neither
`processing` nor `deleted` (and a pending name is set): a `deleted` (or
`processing`) job, and a job with no pending filename, is left entirely
unchanged; rows of other jobs are never touched; in the positive case
the job's row becomes `queued` with the pending filename installed and
the pending column cleared. -/
theorem queuePendingVersionIfNeeded_spec :
    (∀ (fsN fsC : List String) (jobs : List JobRow) (jobId : String) (row : JobRow),
      jobs.find? (fun j => j.id = jobId) = some row →
      (row.pending_filename = none →
        queuePendingVersionIfNeeded fsN fsC jobs jobId = jobs) ∧
      (row.status = JobStatus.deleted →
        queuePendingVersionIfNeeded fsN fsC jobs jobId = jobs) ∧
      (row.status = JobStatus.processing →
        queuePendingVersionIfNeeded fsN fsC jobs jobId = jobs)) ∧
    (∀ (fsN fsC : List String) (jobs : List JobRow) (jobId : String),
      ∀ j ∈ queuePendingVersionIfNeeded fsN fsC jobs jobId, j.id ≠ jobId → j ∈ jobs) ∧
    (∀ (fsN fsC : List String) (jobs : List JobRow) (jobId : String) (row : JobRow)
        (p : String),
      jobs.find? (fun j => j.id = jobId) = some row →
      row.pending_filename = some p → ¬ p.isEmpty →
      ¬ row.status = JobStatus.processing → ¬ row.status = JobStatus.deleted →
      ∃ j ∈ queuePendingVersionIfNeeded fsN fsC jobs jobId,
        j.id = jobId ∧ j.status = JobStatus.queued ∧ j.filename = p ∧
          j.pending_filename = none ∧ j.started_at = none) := by
  refine ⟨?_, ?_, ?_⟩
  · intro fsN fsC jobs jobId row hfind
    refine ⟨?_, ?_, ?_⟩
    · intro hp
      unfold queuePendingVersionIfNeeded
      rw [hfind]
      dsimp only
      rw [hp]
    · intro hs
      unfold queuePendingVersionIfNeeded
      rw [hfind]
      dsimp only
      cases hpf : row.pending_filename with
      | none => rfl
      | some p =>
        dsimp only
        by_cases hemp : p.isEmpty
        · rw [if_pos hemp]
        · rw [if_neg hemp, if_pos (Or.inr hs)]
    · intro hs
      unfold queuePendingVersionIfNeeded
      rw [hfind]
      dsimp only
      cases hpf : row.pending_filename with
      | none => rfl
      | some p =>
        dsimp only
        by_cases hemp : p.isEmpty
        · rw [if_pos hemp]
        · rw [if_neg hemp, if_pos (Or.inl hs)]
  · intro fsN fsC jobs jobId j hj hne
    unfold queuePendingVersionIfNeeded at hj
    cases hfind : jobs.find? (fun j => j.id = jobId) with
    | none => rw [hfind] at hj; exact hj
    | some row =>
      rw [hfind] at hj
      dsimp only at hj
      cases hpf : row.pending_filename with
      | none => rw [hpf] at hj; exact hj
      | some p =>
        rw [hpf] at hj
        dsimp only at hj
        by_cases hemp : p.isEmpty
        · rw [if_pos hemp] at hj; exact hj
        · rw [if_neg hemp] at hj
          by_cases hst : row.status = JobStatus.processing ∨ row.status = JobStatus.deleted
          · rw [if_pos hst] at hj; exact hj
          · rw [if_neg hst] at hj
            rcases List.mem_map.mp hj with ⟨j0, hj0, heq⟩
            by_cases hc : j0.id = jobId ∧ ¬ j0.status = JobStatus.processing
            · rw [if_pos hc] at heq
              have : j.id = jobId := by rw [← heq]; exact hc.1
              exact absurd this hne
            · rw [if_neg hc] at heq
              rw [← heq]
              exact hj0
  · intro fsN fsC jobs jobId row p hfind hpf hemp hproc hdel
    have hrowmem : row ∈ jobs := List.mem_of_find?_eq_some hfind
    have hrowid : row.id = jobId := by simpa using List.find?_some hfind
    unfold queuePendingVersionIfNeeded
    rw [hfind]
    dsimp only
    rw [hpf]
    dsimp only
    rw [if_neg hemp, if_neg (by rintro (h | h); exacts [hproc h, hdel h])]
    refine ⟨promoteRow p
        (if fsN.contains p then FileLocation.new
         else if fsC.contains p then FileLocation.completed else FileLocation.missing) row,
      List.mem_map.mpr ⟨row, hrowmem, ?_⟩, ?_, rfl, rfl, rfl, rfl⟩
    · rw [if_pos ⟨hrowid, hproc⟩]
    · show row.id = jobId
      exact hrowid

def pendingDeletedExampleRow : JobRow :=
  { id := "d1"
    filename := "old.png"
    status := JobStatus.deleted
    progress_step := none
    error := none
    created_at := "2026-01-01"
    started_at := none
    finished_at := none
    file_location := FileLocation.completed
    pending_filename := some "new-version.png" }

theorem queuePendingVersionIfNeeded_spec_witness :
    [pendingDeletedExampleRow].find? (fun j => j.id = "d1") =
      some pendingDeletedExampleRow ∧
    queuePendingVersionIfNeeded ["new-version.png"] [] [pendingDeletedExampleRow] "d1" =
      [pendingDeletedExampleRow] :=
  ⟨by decide,
    ((queuePendingVersionIfNeeded_spec.1 ["new-version.png"] [] [pendingDeletedExampleRow]
      "d1" pendingDeletedExampleRow (by decide)).2.1 (by decide))⟩

theorem queuePendingVersionIfNeeded_noop_none (fsN fsC : List String)
    (jobs : List JobRow) (jobId : String)
    (hfind : jobs.find? (fun j => j.id = jobId) = none) :
    queuePendingVersionIfNeeded fsN fsC jobs jobId = jobs := by
  unfold queuePendingVersionIfNeeded
  rw [hfind]

theorem queuePendingVersionIfNeeded_noop (fsN fsC : List String)
    (jobs : List JobRow) (jobId : String) (row : JobRow)
    (hfind : jobs.find? (fun j => j.id = jobId) = some row)
    (h : row.pending_filename = none ∨ row.status = JobStatus.processing ∨
      row.status = JobStatus.deleted) :
    queuePendingVersionIfNeeded fsN fsC jobs jobId = jobs := by
  unfold queuePendingVersionIfNeeded
  rw [hfind]
  dsimp only
  rcases h with h | h
  · rw [h]
  · cases hpf : row.pending_filename with
    | none => rfl
    | some p =>
      dsimp only
      by_cases hemp : p.isEmpty
      · rw [if_pos hemp]
      · rw [if_neg hemp, if_pos h]

theorem find?_id_of_id_preserving (jobs : List JobRow) (jobId : String)
    (f : JobRow → JobRow) (hidp : ∀ j, (f j).id = j.id) :
    (jobs.map f).find? (fun j => j.id = jobId) =
      Option.map f (jobs.find? (fun j => j.id = jobId)) := by
  rw [List.find?_map]
  have h : ((fun j : JobRow => decide (j.id = jobId)) ∘ f) =
      (fun j : JobRow => decide (j.id = jobId)) := by
    funext j
    simp [Function.comp, hidp j]
  rw [h]

/-- C2: every pipeline exception reaches the single catch boundary of
`processJob` (the boundary is a total function of the outcome, so
nothing escapes); the failure is classified `cancelled` exactly when it
is a cancellation (a `JobCancelledError`, a fired token, or an
abort-named error) and `error` otherwise; the classification and
message are written to the Job's row and to a Run with the attempt's
run id (a Run being created when none was persisted yet), and the
`finally` block always ends with a re-poll tick. -/
theorem processJobBoundary_spec
    (now runId jobId model rawJson : String) (runRecorded : Bool)
    (e : JsError) (aborted : Bool) (fsN fsC : List String)
    (st : DbState) (controllers : List String) (row : JobRow)
    (hnd : (st.jobs.map (fun j => j.id)).Nodup)
    (hrow : row ∈ st.jobs) (hid : row.id = jobId)
    (hproc : row.status = JobStatus.processing)
    (hpend : row.pending_filename = none)
    (hrun : runRecorded = true → ∃ r ∈ st.runs, r.run_id = runId) :
    (∃ j ∈ (processJobBoundary now runId jobId model rawJson runRecorded
        (some (e, aborted)) fsN fsC st controllers).1.jobs,
      j.id = jobId ∧
      j.status = (if isCancellationOutcome e aborted then JobStatus.cancelled
        else JobStatus.error) ∧
      j.error = some (if isCancellationOutcome e aborted then
        messageOrCancelled e.message else e.message)) ∧
    (∀ j ∈ (processJobBoundary now runId jobId model rawJson runRecorded
        (some (e, aborted)) fsN fsC st controllers).1.jobs,
      j.id = jobId →
        (j.status = JobStatus.cancelled ↔ isCancellationOutcome e aborted = true)) ∧
    (∃ r ∈ (processJobBoundary now runId jobId model rawJson runRecorded
        (some (e, aborted)) fsN fsC st controllers).1.runs,
      r.run_id = runId ∧
      r.status = (if isCancellationOutcome e aborted then RunStatus.cancelled
        else RunStatus.error) ∧
      r.error = some (if isCancellationOutcome e aborted then
        messageOrCancelled e.message else e.message)) ∧
    ((processJobBoundary now runId jobId model rawJson runRecorded
        (some (e, aborted)) fsN fsC st controllers).2.2.getLast? =
      some WorkerEvent.tick ∧
     WorkerEvent.caught (isCancellationOutcome e aborted) ∈
      (processJobBoundary now runId jobId model rawJson runRecorded
        (some (e, aborted)) fsN fsC st controllers).2.2) := by
  have hinj : ∀ a ∈ st.jobs, ∀ b ∈ st.jobs, a.id = b.id → a = b :=
    eq_of_mem_of_map_nodup _ st.jobs hnd
  have hfindrow : st.jobs.find? (fun j => j.id = jobId) = some row := by
    cases hf : st.jobs.find? (fun j => j.id = jobId) with
    | none =>
      exfalso
      have h2 : (st.jobs.find? (fun j => j.id = jobId)).isSome :=
        List.find?_isSome.mpr ⟨row, hrow, by simp [hid]⟩
      rw [hf] at h2
      cases h2
    | some j1 =>
      have hj1 : j1 ∈ st.jobs := List.mem_of_find?_eq_some hf
      have hj1id : j1.id = jobId := by simpa using List.find?_some hf
      have h3 : j1 = row := hinj j1 hj1 row hrow (by rw [hj1id, hid])
      rw [← h3]
  by_cases hcls : isCancellationOutcome e aborted = true
  · -- cancelled classification
    have hst1jobs : (processJobCatch now runId jobId model rawJson runRecorded e aborted st).jobs =
        st.jobs.map (fun j =>
          if j.id = jobId then cancelJobRow now (messageOrCancelled e.message) j else j) := by
      unfold processJobCatch
      rw [if_pos hcls]
      by_cases hrr : runRecorded = true
      · rw [if_pos hrr]; rfl
      · rw [if_neg hrr]; rfl
    have hst1runs : (processJobCatch now runId jobId model rawJson runRecorded e aborted st).runs =
        (if runRecorded then
          st.runs.map (fun r => if r.run_id = runId then
            setRunStatusRow RunStatus.cancelled (some (messageOrCancelled e.message)) r else r)
         else st.runs ++
          [{ run_id := runId
             job_id := jobId
             model := model
             extracted_at := now
             rows_inserted := 0
             raw_result_json := rawJson
             status := RunStatus.cancelled
             error := some (messageOrCancelled e.message) }]) := by
      unfold processJobCatch
      rw [if_pos hcls]
      by_cases hrr : runRecorded = true
      · rw [if_pos hrr, if_pos hrr]; rfl
      · rw [if_neg hrr, if_neg hrr]; rfl
    have hfind1 : (processJobCatch now runId jobId model rawJson runRecorded e
        aborted st).jobs.find? (fun j => j.id = jobId) =
          some (cancelJobRow now (messageOrCancelled e.message) row) := by
      rw [hst1jobs, find?_id_of_id_preserving _ _ _
        (fun j => by by_cases h : j.id = jobId <;> simp [h, cancelJobRow]), hfindrow]
      simp [hid]
    have hprom : queuePendingVersionIfNeeded fsN fsC
        (processJobCatch now runId jobId model rawJson runRecorded e aborted st).jobs jobId =
        (processJobCatch now runId jobId model rawJson runRecorded e aborted st).jobs :=
      queuePendingVersionIfNeeded_noop _ _ _ _ _ hfind1
        (Or.inl (by simpa [cancelJobRow] using hpend))
    refine ⟨?_, ?_, ?_, rfl, List.mem_cons_self _ _⟩
    · refine ⟨cancelJobRow now (messageOrCancelled e.message) row, ?_, hid, ?_, ?_⟩
      · show _ ∈ (queuePendingVersionIfNeeded fsN fsC _ jobId)
        rw [hprom, hst1jobs]
        exact List.mem_map.mpr ⟨row, hrow, by rw [if_pos hid]⟩
      · rw [if_pos hcls]; rfl
      · rw [if_pos hcls]; rfl
    · intro j hj hjid
      rw [show (processJobBoundary now runId jobId model rawJson runRecorded
          (some (e, aborted)) fsN fsC st controllers).1.jobs =
            queuePendingVersionIfNeeded fsN fsC
              (processJobCatch now runId jobId model rawJson runRecorded e aborted st).jobs
              jobId from rfl, hprom, hst1jobs] at hj
      rcases List.mem_map.mp hj with ⟨j0, hj0, heq⟩
      by_cases hc : j0.id = jobId
      · rw [if_pos hc] at heq
        rw [← heq]
        simp [hcls, cancelJobRow]
      · rw [if_neg hc] at heq
        rw [← heq] at hjid
        exact absurd hjid hc
    · have hruns : (processJobBoundary now runId jobId model rawJson runRecorded
          (some (e, aborted)) fsN fsC st controllers).1.runs =
            (processJobCatch now runId jobId model rawJson runRecorded e aborted st).runs :=
        rfl
      rw [hruns, hst1runs]
      by_cases hrr : runRecorded = true
      · rw [if_pos hrr]
        rcases hrun hrr with ⟨r0, hr0, hr0id⟩
        refine ⟨setRunStatusRow RunStatus.cancelled (some (messageOrCancelled e.message)) r0,
          List.mem_map.mpr ⟨r0, hr0, by rw [if_pos hr0id]⟩, hr0id, ?_, ?_⟩
        · rw [if_pos hcls]; rfl
        · rw [if_pos hcls]; rfl
      · rw [if_neg hrr]
        refine ⟨_, List.mem_append_right _ (List.mem_singleton_self _), rfl, ?_, ?_⟩
        · rw [if_pos hcls]
        · rw [if_pos hcls]
  · -- error classification
    have hst1jobs : (processJobCatch now runId jobId model rawJson runRecorded e aborted st).jobs =
        st.jobs.map (fun j =>
          if j.id = jobId ∧ j.status = JobStatus.processing then
            errorJobRow now e.message j else j) := by
      unfold processJobCatch
      rw [if_neg hcls]
      by_cases hrr : runRecorded = true
      · rw [if_pos hrr]; rfl
      · rw [if_neg hrr]; rfl
    have hst1runs : (processJobCatch now runId jobId model rawJson runRecorded e aborted st).runs =
        (if runRecorded then
          st.runs.map (fun r => if r.run_id = runId then
            setRunStatusRow RunStatus.error (some e.message) r else r)
         else st.runs ++
          [{ run_id := runId
             job_id := jobId
             model := model
             extracted_at := now
             rows_inserted := 0
             raw_result_json := rawJson
             status := RunStatus.error
             error := some e.message }]) := by
      unfold processJobCatch
      rw [if_neg hcls]
      by_cases hrr : runRecorded = true
      · rw [if_pos hrr, if_pos hrr]; rfl
      · rw [if_neg hrr, if_neg hrr]; rfl
    have hfind1 : (processJobCatch now runId jobId model rawJson runRecorded e
        aborted st).jobs.find? (fun j => j.id = jobId) =
          some (errorJobRow now e.message row) := by
      rw [hst1jobs, find?_id_of_id_preserving _ _ _
        (fun j => by by_cases h : j.id = jobId ∧ j.status = JobStatus.processing <;>
          simp [h, errorJobRow]), hfindrow]
      simp [hid, hproc]
    have hprom : queuePendingVersionIfNeeded fsN fsC
        (processJobCatch now runId jobId model rawJson runRecorded e aborted st).jobs jobId =
        (processJobCatch now runId jobId model rawJson runRecorded e aborted st).jobs :=
      queuePendingVersionIfNeeded_noop _ _ _ _ _ hfind1
        (Or.inl (by simpa [errorJobRow] using hpend))
    refine ⟨?_, ?_, ?_, rfl, List.mem_cons_self _ _⟩
    · refine ⟨errorJobRow now e.message row, ?_, hid, ?_, ?_⟩
      · show _ ∈ (queuePendingVersionIfNeeded fsN fsC _ jobId)
        rw [hprom, hst1jobs]
        exact List.mem_map.mpr ⟨row, hrow, by rw [if_pos ⟨hid, hproc⟩]⟩
      · rw [if_neg hcls]; rfl
      · rw [if_neg hcls]; rfl
    · intro j hj hjid
      rw [show (processJobBoundary now runId jobId model rawJson runRecorded
          (some (e, aborted)) fsN fsC st controllers).1.jobs =
            queuePendingVersionIfNeeded fsN fsC
              (processJobCatch now runId jobId model rawJson runRecorded e aborted st).jobs
              jobId from rfl, hprom, hst1jobs] at hj
      rcases List.mem_map.mp hj with ⟨j0, hj0, heq⟩
      by_cases hc : j0.id = jobId ∧ j0.status = JobStatus.processing
      · rw [if_pos hc] at heq
        rw [← heq]
        constructor
        · intro h; cases h
        · intro h; exact absurd h hcls
      · rw [if_neg hc] at heq
        have hj0id : j0.id = jobId := by rw [← heq] at hjid; exact hjid
        have h4 : j0 = row := hinj j0 hj0 row hrow (by rw [hj0id, hid])
        rw [h4] at hc
        exact absurd ⟨hid, hproc⟩ hc
    · have hruns : (processJobBoundary now runId jobId model rawJson runRecorded
          (some (e, aborted)) fsN fsC st controllers).1.runs =
            (processJobCatch now runId jobId model rawJson runRecorded e aborted st).runs :=
        rfl
      rw [hruns, hst1runs]
      by_cases hrr : runRecorded = true
      · rw [if_pos hrr]
        rcases hrun hrr with ⟨r0, hr0, hr0id⟩
        refine ⟨setRunStatusRow RunStatus.error (some e.message) r0,
          List.mem_map.mpr ⟨r0, hr0, by rw [if_pos hr0id]⟩, hr0id, ?_, ?_⟩
        · rw [if_neg hcls]; rfl
        · rw [if_neg hcls]; rfl
      · rw [if_neg hrr]
        refine ⟨_, List.mem_append_right _ (List.mem_singleton_self _), rfl, ?_, ?_⟩
        · rw [if_neg hcls]
        · rw [if_neg hcls]

def boundaryExampleJob : JobRow :=
  { id := "j1"
    filename := "1986-04-12_chart.png"
    status := JobStatus.processing
    progress_step := some "extracting"
    error := none
    created_at := "2026-01-01"
    started_at := some "2026-01-02"
    finished_at := none
    file_location := FileLocation.new
    pending_filename := none }

def boundaryExampleState : DbState :=
  { jobs := [boundaryExampleJob], runs := [], chart_rows := [] }

def boundaryExampleError : JsError :=
  { name := "Error", message := "boom", isJobCancelled := false }

theorem processJobBoundary_spec_witness :
    boundaryExampleJob ∈ boundaryExampleState.jobs ∧
    (∃ j ∈ (processJobBoundary "2026-01-02" "r1" "j1" "m" "{}" false
        (some (boundaryExampleError, false)) [] [] boundaryExampleState []).1.jobs,
      j.id = "j1" ∧
      j.status = (if isCancellationOutcome boundaryExampleError false then JobStatus.cancelled
        else JobStatus.error) ∧
      j.error = some (if isCancellationOutcome boundaryExampleError false then
        messageOrCancelled boundaryExampleError.message else boundaryExampleError.message)) :=
  ⟨by decide,
    (processJobBoundary_spec "2026-01-02" "r1" "j1" "m" "{}" false boundaryExampleError false
      [] [] boundaryExampleState [] boundaryExampleJob (by decide) (by decide) (by decide)
      (by decide) (by decide) (by intro h; cases h)).1⟩

/-- One step of the range-building loop of `formatRankRanges`
(extractionCompleteness.ts 52-60): extend the last contiguous range or
start a new one. -/
def addRange (acc : List (Nat × Nat)) (rank : Nat) : List (Nat × Nat) :=
  match acc.getLast? with
  | none => acc ++ [(rank, rank)]
  | some last =>
    if last.2 + 1 < rank then acc ++ [(rank, rank)]
    else acc.dropLast ++ [(last.1, rank)]

/-- Embedding of `formatRankRanges` (extractionCompleteness.ts 47-67):
de-duplicate and sort the ranks, fold them into contiguous ranges, and
render at most `max(1, maxRanges)` of them (the finiteness filter and
`Math.floor` are identities on `Nat`). -/
def formatRankRanges (ranks : List Nat) (maxRanges : Nat) : String :=
  let maxR := max 1 maxRanges
  let sorted := List.insertionSort (fun a b => a ≤ b) (setOfList ranks)
  if sorted.isEmpty then ""
  else
    let ranges := sorted.foldl addRange []
    let text := String.intercalate ", "
      ((ranges.take maxR).map (fun r =>
        if r.1 = r.2 then toString r.1 else toString r.1 ++ "-" ++ toString r.2))
    if maxR < ranges.length then text ++ ", …" else text

/-- The gap-summary message of `Worker.processJob` (worker.ts 656-666):
up to four groups rendered as
`title: expected N, got M, missing ranks R`, joined by `; `, with a
trailing ellipsis when more groups were missing. -/
def missingPreview (missing : List MissingChartGroup) : String :=
  let preview := String.intercalate "; "
    ((missing.take 4).map (fun g =>
      (if g.chartTitle.isEmpty then "(unknown chart)" else g.chartTitle) ++
        ": expected " ++ toString g.expectedRowCount ++ ", got " ++
        toString g.actualRowCount ++ ", missing ranks " ++
        formatRankRanges g.missingThisWeekRanks 20))
  "Extraction incomplete: " ++ preview ++ (if 4 < missing.length then "…" else "")

/-- The (rank ascending, nulls last) relation of `sortMergedRows`'s
per-group sort; the source's original-index tie-break is realised by the
stability of insertion sort. -/
def rankOrderLe (a b : ExtractedRow) : Bool :=
  match coerceRank a.thisWeekRank, coerceRank b.thisWeekRank with
  | some ra, some rb => ra ≤ rb
  | some _, none => true
  | none, some _ => false
  | none, none => true

/-- The key comparator of `sortMergedRows` (worker.ts 566-571):
discovery-order index ascending, keys missing from the order map last,
with the source's `localeCompare` tie-break modelled bytewise (the
tie-break is unreachable at the call site, where every key has an
index). -/
def keyOrderLe (orderIndex : String → Option Nat) (a b : String) : Bool :=
  match orderIndex a, orderIndex b with
  | some ia, some ib => if ia = ib then strLe a b else ia < ib
  | some _, none => true
  | none, some _ => false
  | none, none => strLe a b

/-- Embedding of `sortMergedRows` (worker.ts 549-587): group the rows by
chart-group key, order the keys by their first-discovery index from
`chartGroupOrder`, and sort each group by numeric this-week rank with
unparseable ranks last, preserving insertion order on ties. -/
def sortMergedRows (chartGroupOrder : List String) (rows : List ExtractedRow) :
    List ExtractedRow :=
  let orderIndexMap : List (String × Nat) :=
    chartGroupOrder.enum.foldl (fun m p => mapSet m p.2 p.1) []
  let groups := groupRows rows
  let sortedKeys := List.insertionSort
    (fun a b => keyOrderLe (fun k => mapGet orderIndexMap k) a b = true)
    (groups.map (fun g => g.key))
  (sortedKeys.map (fun k =>
    match groups.find? (fun g => g.key = k) with
    | some g => List.insertionSort (fun a b => rankOrderLe a b = true) g.rows
    | none => [])).flatten

/-- The first-seen chart-group key order of worker.ts 485-494. -/
def chartGroupOrderOf (rows : List ExtractedRow) : List String :=
  (groupRows rows).map (fun g => g.key)

theorem map_update_flatten_perm (k : String) (row : ExtractedRow) :
    ∀ gs : List RowGroup, (gs.map (fun g => g.key)).Nodup →
      (∃ g ∈ gs, g.key = k) →
      ((gs.map (fun g =>
        if g.key = k then { g with rows := g.rows ++ [row] } else g)).map
          (fun g => g.rows)).flatten.Perm
        (((gs.map (fun g => g.rows)).flatten) ++ [row]) := by
  intro gs
  induction gs with
  | nil =>
    intro _ h
    rcases h with ⟨g, hg, _⟩
    cases hg
  | cons g0 t ih =>
    intro hnd hex
    simp only [List.map_cons, List.nodup_cons] at hnd
    by_cases hk : g0.key = k
    · rw [List.map_cons, if_pos hk]
      have ht : t.map (fun g =>
          if g.key = k then { g with rows := g.rows ++ [row] } else g) = t := by
        conv_rhs => rw [← List.map_id t]
        apply List.map_congr_left
        intro g hg
        dsimp only [id]
        rw [if_neg]
        intro hgk
        exact hnd.1 (List.mem_map.mpr ⟨g, hg, hgk.trans hk.symm⟩)
      rw [ht, List.map_cons, List.flatten_cons, List.map_cons, List.flatten_cons]
      have hmid : ((g0.rows ++ [row]) ++ (t.map (fun g => g.rows)).flatten).Perm
          (g0.rows ++ ((t.map (fun g => g.rows)).flatten ++ [row])) := by
        rw [List.append_assoc, List.singleton_append]
        exact List.Perm.append_left g0.rows
          (List.perm_append_singleton row ((t.map (fun g => g.rows)).flatten)).symm
      rw [← List.append_assoc] at hmid
      exact hmid
    · rw [List.map_cons, if_neg hk, List.map_cons, List.flatten_cons,
        List.map_cons, List.flatten_cons]
      have hex2 : ∃ g ∈ t, g.key = k := by
        rcases hex with ⟨g, hg, hgk⟩
        rcases List.mem_cons.mp hg with rfl | hgt
        · exact absurd hgk hk
        · exact ⟨g, hgt, hgk⟩
      have hih := ih hnd.2 hex2
      have hmid := List.Perm.append_left g0.rows hih
      rw [← List.append_assoc] at hmid
      exact hmid

theorem addRowToGroups_flatten_perm (gs : List RowGroup) (row : ExtractedRow)
    (hnd : (gs.map (fun g => g.key)).Nodup) :
    (((addRowToGroups gs row).map (fun g => g.rows)).flatten).Perm
      (((gs.map (fun g => g.rows)).flatten) ++ [row]) := by
  unfold addRowToGroups
  by_cases hany : gs.any (fun g => g.key = rowKey row)
  · rw [if_pos hany]
    have hex : ∃ g ∈ gs, g.key = rowKey row := by
      rcases List.any_eq_true.mp hany with ⟨g, hg, hk⟩
      exact ⟨g, hg, by simpa using hk⟩
    exact map_update_flatten_perm (rowKey row) row gs hnd hex
  · rw [if_neg hany, List.map_append, List.flatten_append]
    simp only [List.map_cons, List.map_nil, List.flatten_cons, List.flatten_nil,
      List.append_nil]
    exact List.Perm.refl _

theorem foldl_addRow_flatten_perm (rows : List ExtractedRow) :
    ∀ gs : List RowGroup, (gs.map (fun g => g.key)).Nodup →
      (((rows.foldl addRowToGroups gs).map (fun g => g.rows)).flatten).Perm
        (((gs.map (fun g => g.rows)).flatten) ++ rows) := by
  induction rows with
  | nil =>
    intro gs _
    rw [List.foldl_nil, List.append_nil]
  | cons row rows ih =>
    intro gs hnd
    rw [List.foldl_cons]
    have h1 := ih (addRowToGroups gs row) (addRowToGroups_keys_nodup gs row hnd)
    have h2 := List.Perm.append_right rows (addRowToGroups_flatten_perm gs row hnd)
    have h3 := h1.trans h2
    rw [List.append_assoc, List.singleton_append] at h3
    exact h3

theorem groupRows_flatten_perm (rows : List ExtractedRow) :
    (((groupRows rows).map (fun g => g.rows)).flatten).Perm rows := by
  have h := foldl_addRow_flatten_perm rows [] (by simp)
  simpa using h

theorem find?_self_of_keys_nodup :
    ∀ gs : List RowGroup, (gs.map (fun g => g.key)).Nodup →
      ∀ g ∈ gs, gs.find? (fun g2 => g2.key = g.key) = some g := by
  intro gs
  induction gs with
  | nil => intro _ g hg; cases hg
  | cons a l ih =>
    intro hnd g hg
    simp only [List.map_cons, List.nodup_cons] at hnd
    rcases List.mem_cons.mp hg with rfl | hgl
    · rw [List.find?_cons_of_pos]
      simp
    · rw [List.find?_cons_of_neg]
      · exact ih hnd.2 g hgl
      · simp only [decide_eq_true_eq]
        intro hk
        exact hnd.1 (List.mem_map.mpr ⟨g, hgl, hk.symm⟩)

theorem flatten_map_sort_perm (r : ExtractedRow → ExtractedRow → Prop) [DecidableRel r] :
    ∀ gs : List RowGroup,
      ((gs.map (fun g => List.insertionSort r g.rows)).flatten).Perm
        ((gs.map (fun g => g.rows)).flatten) := by
  intro gs
  induction gs with
  | nil => simp
  | cons a l ih =>
    simp only [List.map_cons, List.flatten_cons]
    exact List.Perm.append (List.perm_insertionSort r a.rows) ih

theorem sortMergedRows_perm (cgo : List String) (rows : List ExtractedRow) :
    (sortMergedRows cgo rows).Perm rows := by
  unfold sortMergedRows
  dsimp only
  have hnd := groupRows_keys_nodup rows
  have hperm1 : (List.insertionSort
      (fun a b => keyOrderLe (fun k => mapGet
        (cgo.enum.foldl (fun m p => mapSet m p.2 p.1) []) k) a b = true)
      ((groupRows rows).map (fun g => g.key))).Perm
      ((groupRows rows).map (fun g => g.key)) := List.perm_insertionSort _ _
  have hperm2 := hperm1.map (fun k =>
    match (groupRows rows).find? (fun g => g.key = k) with
    | some g => List.insertionSort (fun a b => rankOrderLe a b = true) g.rows
    | none => [])
  have hperm3 := hperm2.flatten
  have hmapeq : (((groupRows rows).map (fun g => g.key)).map (fun k =>
      match (groupRows rows).find? (fun g => g.key = k) with
      | some g => List.insertionSort (fun a b => rankOrderLe a b = true) g.rows
      | none => [])) =
      ((groupRows rows).map (fun g =>
        List.insertionSort (fun a b => rankOrderLe a b = true) g.rows)) := by
    rw [List.map_map]
    apply List.map_congr_left
    intro g hg
    simp only [Function.comp]
    rw [find?_self_of_keys_nodup (groupRows rows) hnd g hg]
  rw [hmapeq] at hperm3
  exact (hperm3.trans
    ((flatten_map_sort_perm (fun a b => rankOrderLe a b = true) (groupRows rows)).trans
      (groupRows_flatten_perm rows)))

/-- A non-empty `String.isEmpty` check: `isEmpty` only holds of `""`. -/
theorem eq_empty_of_isEmpty (s : String) (h : s.isEmpty = true) : s = "" := by
  cases s with
  | mk data =>
    cases data with
    | nil => rfl
    | cons c cs =>
      unfold String.isEmpty at h
      simp [String.endPos, String.utf8ByteSize, String.utf8ByteSize.go] at h
      have h2 : String.utf8Len cs + c.utf8Size = 0 := congrArg String.Pos.byteIdx h
      have := Char.utf8Size_pos c
      omega

/-- The gap preview always starts with `Extraction incomplete: `, so it
is never the empty string. -/
theorem missingPreview_isEmpty_false (missing : List MissingChartGroup) :
    (missingPreview missing).isEmpty = false := by
  unfold missingPreview
  dsimp only
  rw [Bool.eq_false_iff]
  intro h
  have h2 := eq_empty_of_isEmpty _ h
  have h3 := congrArg String.length h2
  rw [String.length_append, String.length_append] at h3
  simp at h3
  exact absurd h3.1.1 (by decide)

/-- The `chart_rows` row inserted for one merged row (worker.ts 717-734). -/
def chartRowOf (now runId jobId entryDate jobFilename : String)
    (row : ExtractedRow) : ChartRowRec :=
  { run_id := runId
    job_id := jobId
    entry_date := entryDate
    chart_title := row.chartTitle
    chart_section := row.chartSection
    this_week_rank := coerceRank row.thisWeekRank
    last_week_rank := coerceRank row.lastWeekRank
    two_weeks_ago_rank := coerceRank row.twoWeeksAgoRank
    weeks_on_chart := coerceRank row.weeksOnChart
    title := row.title
    artist := row.artist
    label := row.label
    source_file := jobFilename
    extracted_at := now }

/-- The post-retry persistence tail of `Worker.processJob` (worker.ts
589-740), entered with the merged rows left after the targeted and the
fallback-model retries: recompute the missing groups, mark the run
`error` with the gap preview when gaps remain, sort the merged rows,
throw when nothing was extracted, insert the run row and every chart
row inside one transaction, set `runRecorded`, and throw the run error
when the run was not `completed`.  Returns the new store, the
`runRecorded` flag, and the thrown error if any (progress labels and
the file-move tail of the fully-completed path are not modelled). -/
def finishExtractionPhase (now runId jobId finalModel entryDate jobFilename
    rawResultJson : String) (chartGroupOrder : List String)
    (mergedRows : List ExtractedRow) (st : DbState) :
    DbState × Bool × Option JsError :=
  let missing := findMissingChartGroups mergedRows (some jobFilename)
  let runStatus := if missing.isEmpty then RunStatus.completed else RunStatus.error
  let runError : Option String :=
    if missing.isEmpty then none else some (missingPreview missing)
  let sortedRows := sortMergedRows chartGroupOrder mergedRows
  if sortedRows.isEmpty then
    (st, false,
      some { name := "Error", message := "No rows extracted", isJobCancelled := false })
  else
    let st2 := { st with
      runs := st.runs ++ [{
        run_id := runId
        job_id := jobId
        model := finalModel
        extracted_at := now
        rows_inserted := sortedRows.length
        raw_result_json := rawResultJson
        status := runStatus
        error := runError }]
      chart_rows := st.chart_rows ++
        sortedRows.map (chartRowOf now runId jobId entryDate jobFilename) }
    if runStatus = RunStatus.completed then (st2, true, none)
    else
      (st2, true,
        some { name := "Error"
               message := match runError with
                 | some s => if s.isEmpty then "Extraction incomplete" else s
                 | none => "Extraction incomplete"
               isJobCancelled := false })

/-- The degraded-completeness path of `Worker.processJob`: the
persistence tail followed by the catch/finally boundary fed with the
tail's outcome and the abort-signal state. -/
def processJobDegradedSegment (now runId jobId finalModel entryDate jobFilename
    rawResultJson : String) (chartGroupOrder : List String)
    (mergedRows : List ExtractedRow) (aborted : Bool)
    (fsNew fsCompleted : List String) (st : DbState) (controllers : List String) :
    DbState × List String × List WorkerEvent :=
  match finishExtractionPhase now runId jobId finalModel entryDate jobFilename
      rawResultJson chartGroupOrder mergedRows st with
  | (st2, runRecorded, none) =>
    processJobBoundary now runId jobId finalModel rawResultJson runRecorded none
      fsNew fsCompleted st2 controllers
  | (st2, runRecorded, some e) =>
    processJobBoundary now runId jobId finalModel rawResultJson runRecorded
      (some (e, aborted)) fsNew fsCompleted st2 controllers

theorem finishExtractionPhase_error_eq
    (now runId jobId finalModel entryDate jobFilename rawResultJson : String)
    (chartGroupOrder : List String) (mergedRows : List ExtractedRow) (st : DbState)
    (hmiss : findMissingChartGroups mergedRows (some jobFilename) ≠ []) :
    finishExtractionPhase now runId jobId finalModel entryDate jobFilename
        rawResultJson chartGroupOrder mergedRows st =
      ({ st with
          runs := st.runs ++ [{
            run_id := runId
            job_id := jobId
            model := finalModel
            extracted_at := now
            rows_inserted := (sortMergedRows chartGroupOrder mergedRows).length
            raw_result_json := rawResultJson
            status := RunStatus.error
            error := some (missingPreview
              (findMissingChartGroups mergedRows (some jobFilename))) }]
          chart_rows := st.chart_rows ++
            (sortMergedRows chartGroupOrder mergedRows).map
              (chartRowOf now runId jobId entryDate jobFilename) },
        true,
        some { name := "Error"
               message := missingPreview
                 (findMissingChartGroups mergedRows (some jobFilename))
               isJobCancelled := false }) := by
  have hrows : mergedRows ≠ [] := by
    intro h
    rw [h] at hmiss
    exact hmiss rfl
  have hperm := sortMergedRows_perm chartGroupOrder mergedRows
  have hsne : sortMergedRows chartGroupOrder mergedRows ≠ [] := by
    intro h
    have hlen := hperm.length_eq
    rw [h] at hlen
    exact hrows (List.eq_nil_of_length_eq_zero hlen.symm)
  have hempty : (sortMergedRows chartGroupOrder mergedRows).isEmpty = false := by
    cases hs : sortMergedRows chartGroupOrder mergedRows with
    | nil => exact absurd hs hsne
    | cons a l => rfl
  have hmB : (findMissingChartGroups mergedRows (some jobFilename)).isEmpty = false := by
    cases hs : findMissingChartGroups mergedRows (some jobFilename) with
    | nil => exact absurd hs hmiss
    | cons a l => rfl
  unfold finishExtractionPhase
  dsimp only
  rw [hmB, hempty]
  rw [if_neg (by simp)]
  rw [if_neg (by simp), if_neg (by simp)]
  rw [if_neg (by intro hc; cases hc)]
  dsimp only
  rw [missingPreview_isEmpty_false]
  rw [if_neg (by simp)]

/-- The run row inserted by the degraded persistence tail. -/
def degradedRunRow (now runId jobId finalModel rawResultJson jobFilename : String)
    (chartGroupOrder : List String) (mergedRows : List ExtractedRow) : RunRow :=
  { run_id := runId
    job_id := jobId
    model := finalModel
    extracted_at := now
    rows_inserted := (sortMergedRows chartGroupOrder mergedRows).length
    raw_result_json := rawResultJson
    status := RunStatus.error
    error := some (missingPreview
      (findMissingChartGroups mergedRows (some jobFilename))) }

/-- C6: when missing chart groups remain after the targeted retry and
the fallback-model retry, the persistence tail still inserts, in one
transaction, every merged row into `chart_rows` (a permutation of the
merged rows, sorted for output) together with a run whose status is
`error` and whose error text is the human-readable gap preview built
from expected count, actual count, and formatted missing rank ranges;
the error thrown afterwards is caught at the boundary, which puts the
job into status `error` (not `completed`) with the same gap text, and a
re-poll tick still follows — the extracted rows are never discarded. -/
theorem processJobDegradedSegment_spec
    (now runId jobId finalModel entryDate jobFilename rawResultJson : String)
    (chartGroupOrder fsNew fsCompleted : List String)
    (mergedRows : List ExtractedRow) (st : DbState) (controllers : List String)
    (job : JobRow)
    (hmiss : findMissingChartGroups mergedRows (some jobFilename) ≠ [])
    (hfind : st.jobs.find? (fun j => j.id = jobId) = some job)
    (hproc : job.status = JobStatus.processing)
    (hpend : job.pending_filename = none) :
    (processJobDegradedSegment now runId jobId finalModel entryDate jobFilename
        rawResultJson chartGroupOrder mergedRows false fsNew fsCompleted st
        controllers).1.chart_rows =
      st.chart_rows ++ (sortMergedRows chartGroupOrder mergedRows).map
        (chartRowOf now runId jobId entryDate jobFilename) ∧
    (sortMergedRows chartGroupOrder mergedRows).Perm mergedRows ∧
    (∃ r ∈ (processJobDegradedSegment now runId jobId finalModel entryDate jobFilename
        rawResultJson chartGroupOrder mergedRows false fsNew fsCompleted st
        controllers).1.runs,
      r.run_id = runId ∧ r.job_id = jobId ∧ r.status = RunStatus.error ∧
      r.error = some (missingPreview
        (findMissingChartGroups mergedRows (some jobFilename))) ∧
      r.rows_inserted = mergedRows.length) ∧
    (∃ j ∈ (processJobDegradedSegment now runId jobId finalModel entryDate jobFilename
        rawResultJson chartGroupOrder mergedRows false fsNew fsCompleted st
        controllers).1.jobs,
      j.id = jobId ∧ j.status = JobStatus.error ∧
      j.error = some (missingPreview
        (findMissingChartGroups mergedRows (some jobFilename)))) ∧
    (processJobDegradedSegment now runId jobId finalModel entryDate jobFilename
        rawResultJson chartGroupOrder mergedRows false fsNew fsCompleted st
        controllers).2.2 =
      [WorkerEvent.caught false, WorkerEvent.controllerReleased,
       WorkerEvent.pendingPromotion, WorkerEvent.tick] := by
  have hperm := sortMergedRows_perm chartGroupOrder mergedRows
  have hjid : job.id = jobId := by
    have h := List.find?_some hfind
    exact of_decide_eq_true h
  have hfin0 := finishExtractionPhase_error_eq now runId jobId finalModel entryDate
    jobFilename rawResultJson chartGroupOrder mergedRows st hmiss
  have hfin : finishExtractionPhase now runId jobId finalModel entryDate jobFilename
      rawResultJson chartGroupOrder mergedRows st =
      ({ st with
          runs := st.runs ++ [degradedRunRow now runId jobId finalModel rawResultJson
            jobFilename chartGroupOrder mergedRows]
          chart_rows := st.chart_rows ++
            (sortMergedRows chartGroupOrder mergedRows).map
              (chartRowOf now runId jobId entryDate jobFilename) },
        true,
        some { name := "Error"
               message := missingPreview
                 (findMissingChartGroups mergedRows (some jobFilename))
               isJobCancelled := false }) := hfin0
  have hcls : isCancellationOutcome
      { name := "Error"
        message := missingPreview (findMissingChartGroups mergedRows (some jobFilename))
        isJobCancelled := false } false = false := rfl
  have hfind1 : ((st.jobs.map (fun j =>
      if j.id = jobId ∧ j.status = JobStatus.processing then
        errorJobRow now (missingPreview
          (findMissingChartGroups mergedRows (some jobFilename))) j
      else j)).find? (fun j => j.id = jobId)) =
      some (errorJobRow now (missingPreview
        (findMissingChartGroups mergedRows (some jobFilename))) job) := by
    rw [find?_id_of_id_preserving st.jobs jobId _ (by
      intro j
      by_cases hc : j.id = jobId ∧ j.status = JobStatus.processing
      · rw [if_pos hc]
        rfl
      · rw [if_neg hc])]
    rw [hfind]
    dsimp only [Option.map]
    rw [if_pos ⟨hjid, hproc⟩]
  have hqp : queuePendingVersionIfNeeded fsNew fsCompleted
      (st.jobs.map (fun j =>
        if j.id = jobId ∧ j.status = JobStatus.processing then
          errorJobRow now (missingPreview
            (findMissingChartGroups mergedRows (some jobFilename))) j
        else j)) jobId =
      st.jobs.map (fun j =>
        if j.id = jobId ∧ j.status = JobStatus.processing then
          errorJobRow now (missingPreview
            (findMissingChartGroups mergedRows (some jobFilename))) j
        else j) := by
    refine queuePendingVersionIfNeeded_noop fsNew fsCompleted _ jobId _ hfind1 (Or.inl ?_)
    show job.pending_filename = none
    exact hpend
  have hseg : processJobDegradedSegment now runId jobId finalModel entryDate
      jobFilename rawResultJson chartGroupOrder mergedRows false fsNew fsCompleted st
      controllers =
      ({ jobs := st.jobs.map (fun j =>
            if j.id = jobId ∧ j.status = JobStatus.processing then
              errorJobRow now (missingPreview
                (findMissingChartGroups mergedRows (some jobFilename))) j
            else j)
         runs := (st.runs ++ [degradedRunRow now runId jobId finalModel rawResultJson
            jobFilename chartGroupOrder mergedRows]).map
              (fun r => if r.run_id = runId then
                setRunStatusRow RunStatus.error (some (missingPreview
                  (findMissingChartGroups mergedRows (some jobFilename)))) r
                else r)
         chart_rows := st.chart_rows ++
           (sortMergedRows chartGroupOrder mergedRows).map
             (chartRowOf now runId jobId entryDate jobFilename) },
        controllers.erase jobId,
        [WorkerEvent.caught false, WorkerEvent.controllerReleased,
         WorkerEvent.pendingPromotion, WorkerEvent.tick]) := by
    unfold processJobDegradedSegment
    rw [hfin]
    unfold processJobBoundary
    dsimp only
    unfold processJobCatch
    rw [hcls]
    rw [if_neg (by simp)]
    dsimp only
    rw [if_pos rfl]
    unfold updateRunStatusOp setErrorOp
    dsimp only
    rw [hqp]
  refine ⟨?_, hperm, ?_, ?_, ?_⟩
  · rw [hseg]
  · rw [hseg]
    refine ⟨setRunStatusRow RunStatus.error (some (missingPreview
        (findMissingChartGroups mergedRows (some jobFilename))))
        (degradedRunRow now runId jobId finalModel rawResultJson jobFilename
          chartGroupOrder mergedRows), ?_, ?_⟩
    · apply List.mem_map.mpr
      refine ⟨degradedRunRow now runId jobId finalModel rawResultJson jobFilename
        chartGroupOrder mergedRows,
        List.mem_append.mpr (Or.inr (List.mem_singleton.mpr rfl)), ?_⟩
      dsimp only [degradedRunRow]
      rw [if_pos rfl]
    · refine ⟨rfl, rfl, rfl, rfl, ?_⟩
      show (sortMergedRows chartGroupOrder mergedRows).length = mergedRows.length
      exact hperm.length_eq
  · rw [hseg]
    refine ⟨errorJobRow now (missingPreview
      (findMissingChartGroups mergedRows (some jobFilename))) job, ?_, ?_⟩
    · apply List.mem_map.mpr
      refine ⟨job, List.mem_of_find?_eq_some hfind, ?_⟩
      dsimp only
      rw [if_pos ⟨hjid, hproc⟩]
    · exact ⟨hjid, rfl, rfl⟩
  · rw [hseg]

def degradedExampleJob : JobRow :=
  { id := "j6"
    filename := "1986-04-12_top5.png"
    status := JobStatus.processing
    progress_step := some "extracting"
    error := none
    created_at := "2026-01-01"
    started_at := some "2026-01-02"
    finished_at := none
    file_location := FileLocation.new
    pending_filename := none }

def degradedExampleState : DbState :=
  { jobs := [degradedExampleJob], runs := [], chart_rows := [] }

theorem processJobDegradedSegment_spec_witness :
    findMissingChartGroups exampleRanks1245 (some "1986-04-12_top5.png") ≠ [] ∧
    degradedExampleJob.status = JobStatus.processing ∧
    (∃ j ∈ (processJobDegradedSegment "NOW" "r6" "j6" "m" "1986-04-12"
        "1986-04-12_top5.png" "raw" (chartGroupOrderOf exampleRanks1245)
        exampleRanks1245 false [] [] degradedExampleState []).1.jobs,
      j.id = "j6" ∧ j.status = JobStatus.error ∧
      j.error = some (missingPreview
        (findMissingChartGroups exampleRanks1245 (some "1986-04-12_top5.png")))) :=
  ⟨by decide, rfl,
    (processJobDegradedSegment_spec "NOW" "r6" "j6" "m" "1986-04-12"
      "1986-04-12_top5.png" "raw" (chartGroupOrderOf exampleRanks1245) [] []
      exampleRanks1245 degradedExampleState [] degradedExampleJob
      (by decide) (by decide) rfl rfl).2.2.2.1⟩
